import Mathlib

/-!
Shallow embedding of `src/malloc_4.cpp` (level-4 allocator of
Custom-Malloc-Implementations) and verification of the frozen claims.

Modelling conventions:
* Addresses are natural numbers.  A C pointer is `Option Nat` (`none` = nullptr).
* Header memory is an association list from the header's address to the
  `malloc_metadata_t` record; payload bytes live in a separate byte map
  (`data`), defaulting to 0 (fresh OS pages are zero-filled).
* On LP64 (the source targets Linux/g++): `sizeof(void*) = 8`,
  `sizeof(malloc_metadata_t) = 48` (size_t + padded bool + four pointers).
* `sbrk`/`mmap` are modelled by a bump allocator plus an oracle stream of
  failure bits (`true` = the call fails); an exhausted stream means success.
  `sbrk` increments are natural numbers: the verified executions stay in the
  regime where the C `size_t` subtractions do not wrap.
* Loops carry explicit fuel; every execution proved about below terminates
  well within the supplied fuel.
* A C pointer dereference of an unmapped header would be undefined behaviour;
  the model leaves the state unchanged there.  All verified executions only
  dereference mapped headers.
-/

/-- sizeof(void*), source line 29. -/
def ADDRESS_SIZE : Nat := 8

/-- Source line 30: round `address` up to the next multiple of `ADDRESS_SIZE`. -/
def GET_SIZE_WITH_ALIGNMENT (address : Nat) : Nat :=
  address + ((ADDRESS_SIZE - address % ADDRESS_SIZE) % ADDRESS_SIZE)

/-- Source line 31. -/
def MAX_MALLOC_4_SIZE : Nat := 100000000

/-- Source line 33: number of bin buckets. -/
def BIN_SIZE : Nat := 128

/-- Source line 34. -/
def KB : Nat := 1024

/-- Source line 35: `128 * KB`, the mmap threshold. -/
def MIN_KB_BLOCK : Nat := 128 * KB

/-- sizeof(malloc_metadata_t) on LP64: 8 (size_t) + 8 (bool + padding) + 4 * 8. -/
def sizeof_malloc_metadata_t : Nat := 48

/-- Source line 146: bucket index of a block size.  No clamping in the source. -/
def GET_BIN_ENTRY (size : Nat) : Nat := size / KB

/-- Source lines 153-154. -/
def IS_LARGE_ENOUGH (entire_block_size needed_size : Nat) : Prop :=
  entire_block_size ≥ needed_size + sizeof_malloc_metadata_t + 128

instance (e n : Nat) : Decidable (IS_LARGE_ENOUGH e n) := by
  unfold IS_LARGE_ENOUGH; infer_instance

/-- Source lines 51-58: the per-block header. -/
structure MallocMetadata where
  size : Nat
  is_free : Bool
  next : Option Nat
  prev : Option Nat
  bin_next : Option Nat
  bin_prev : Option Nat
deriving Repr, DecidableEq

/-- Look an address up in the header map. -/
def getMd : List (Nat × MallocMetadata) → Nat → Option MallocMetadata
  | [], _ => none
  | (b, m) :: rest, a => if a = b then some m else getMd rest a

/-- Write a header (replace or extend). -/
def setMd : List (Nat × MallocMetadata) → Nat → MallocMetadata → List (Nat × MallocMetadata)
  | [], a, m => [(a, m)]
  | (b, mb) :: rest, a, m =>
      if a = b then (a, m) :: rest else (b, mb) :: setMd rest a m

/-- Drop a header from the map (used to model `munmap`). -/
def delMd : List (Nat × MallocMetadata) → Nat → List (Nat × MallocMetadata)
  | [], _ => []
  | (b, mb) :: rest, a => if a = b then delMd rest a else (b, mb) :: delMd rest a

/-- Byte-map lookup; unwritten OS memory reads as 0. -/
def getByteMap : List (Nat × Nat) → Nat → Nat
  | [], _ => 0
  | (b, v) :: rest, a => if a = b then v else getByteMap rest a

/-- Byte-map write. -/
def setByteMap : List (Nat × Nat) → Nat → Nat → List (Nat × Nat)
  | [], a, v => [(a, v)]
  | (b, vb) :: rest, a, v =>
      if a = b then (a, v) :: rest else (b, vb) :: setByteMap rest a v

/-- Bin-array lookup (absent entry = nullptr head). -/
def binLookup : List (Nat × Option Nat) → Nat → Option Nat
  | [], _ => none
  | (i, h) :: rest, j => if j = i then h else binLookup rest j

/-- Bin-array store.  The source array has 128 cells; the model accepts any
index so that the out-of-bounds accesses the source can perform (see claim C4)
are still observable as entries at indices ≥ 128. -/
def binStore : List (Nat × Option Nat) → Nat → Option Nat → List (Nat × Option Nat)
  | [], i, h => [(i, h)]
  | (j, hj) :: rest, i, h =>
      if i = j then (i, h) :: rest else (j, hj) :: binStore rest i h

/-- Whole-allocator state: the globals of the source (lines 157-164) plus the
modelled OS (program break, mmap arena, failure oracles, payload bytes). -/
structure AllocState where
  mem : List (Nat × MallocMetadata)
  metadata_head : Option Nat
  mmap_metadata_head : Option Nat
  free_block_bin : List (Nat × Option Nat)
  data : List (Nat × Nat)
  brk : Nat
  mmap_base : Nat
  sbrk_fails : List Bool
  mmap_fails : List Bool
deriving Repr, DecidableEq

/-- Read a header from the state. -/
def md (s : AllocState) (a : Nat) : Option MallocMetadata := getMd s.mem a

/-- Write a header into the state. -/
def putMd (s : AllocState) (a : Nat) (m : MallocMetadata) : AllocState :=
  { s with mem := setMd s.mem a m }

/-- Apply a field update to the header at `a` (a C `x->field = v` statement).
Dereferencing an unmapped header is C undefined behaviour; the model keeps the
state unchanged there. -/
def updMd (s : AllocState) (a : Nat) (f : MallocMetadata → MallocMetadata) : AllocState :=
  match md s a with
  | none => s
  | some m => putMd s a (f m)

/-- Read one bin cell. -/
def binGet (s : AllocState) (i : Nat) : Option Nat := binLookup s.free_block_bin i

/-- Write one bin cell. -/
def binSet (s : AllocState) (i : Nat) (h : Option Nat) : AllocState :=
  { s with free_block_bin := binStore s.free_block_bin i h }

/-- Read one payload byte. -/
def getByte (s : AllocState) (a : Nat) : Nat := getByteMap s.data a

/-- Write one payload byte. -/
def setByte (s : AllocState) (a v : Nat) : AllocState :=
  { s with data := setByteMap s.data a v }

/-- Model of `sbrk n` for `n ≥ 0`: pops the failure oracle; on success returns
the old break and advances it. -/
def sbrkCall (n : Nat) (s : AllocState) : Option Nat × AllocState :=
  match s.sbrk_fails with
  | [] => (some s.brk, { s with brk := s.brk + n })
  | b :: rest =>
      if b then (none, { s with sbrk_fails := rest })
      else (some s.brk, { s with brk := s.brk + n, sbrk_fails := rest })

/-- Model of anonymous `mmap` of `n` bytes: fresh region from the mmap arena. -/
def mmapCall (n : Nat) (s : AllocState) : Option Nat × AllocState :=
  match s.mmap_fails with
  | [] => (some s.mmap_base, { s with mmap_base := s.mmap_base + n })
  | b :: rest =>
      if b then (none, { s with mmap_fails := rest })
      else (some s.mmap_base, { s with mmap_base := s.mmap_base + n, mmap_fails := rest })

/-- Model of `memset(p, 0, n)` over the payload byte map. -/
def memsetZero (p : Nat) : Nat → AllocState → AllocState
  | 0, s => s
  | n + 1, s => memsetZero p n (setByte s (p + n) 0)

/-- Model of `memmove(dst, src, n)`: all reads happen from the pre-call bytes
(overlap-safe, as the C call guarantees). -/
def memmoveBytes (dst src n : Nat) (s : AllocState) : AllocState :=
  let newData := List.foldl
    (fun d i => setByteMap d (dst + i) (getByteMap s.data (src + i)))
    s.data (List.range n)
  { s with data := newData }

/-- Source lines 178-191: walk `next` links to the first block with no
successor.  Fuel-exhaustion yields `none` (the C loop would keep walking). -/
def get_last_metadata_block (s : AllocState) : Nat → Option Nat → Option Nat
  | _, none => none
  | 0, some _ => none
  | fuel + 1, some a =>
    match md s a with
    | none => none
    | some m =>
      match m.next with
      | none => some a
      | some _ => get_last_metadata_block s fuel m.next

/-- Source lines 203-226: unlink `to_del` from a doubly linked `next`/`prev`
list whose head is `head`; returns the new head. -/
def remove_from_list (to_del : Nat) (head : Option Nat) (s : AllocState) :
    Option Nat × AllocState :=
  match md s to_del with
  | none => (head, s)
  | some m =>
    let step : Option Nat × AllocState :=
      match m.next, m.prev with
      | none, none => (none, s)
      | some nx, none =>
          (some nx, updMd s nx (fun x => { x with prev := none }))
      | none, some pr =>
          (head, updMd s pr (fun x => { x with next := none }))
      | some nx, some pr =>
          let s1 := updMd s nx (fun x => { x with prev := some pr })
          let s2 := updMd s1 pr (fun x => { x with next := some nx })
          (head, s2)
    let s3 := updMd step.2 to_del (fun x => { x with next := none, prev := none })
    (step.1, s3)

/-- Source lines 238-257: unlink `to_del` from the bin bucket chosen by its
current `size`.  Translated exactly: the source has no case for a node with
both `bin_prev` and `bin_next` set, so the final branch truncates the bucket
after `bin_prev` (compare `remove_from_list`, which handles all four cases). -/
def remove_from_bin (to_del : Nat) (s : AllocState) : AllocState :=
  match md s to_del with
  | none => s
  | some m =>
    let idx := GET_BIN_ENTRY m.size
    let s1 :=
      match m.bin_next, m.bin_prev with
      | none, none => binSet s idx none
      | some nx, none =>
          let t := binSet s idx (some nx)
          updMd t nx (fun x => { x with bin_prev := none })
      | _, some pr => updMd s pr (fun x => { x with bin_next := none })
    updMd s1 to_del (fun x => { x with bin_next := none, bin_prev := none })

/-- Source lines 269-285: append `new_block` at the end of a `next`/`prev`
list; returns the new head. -/
def insert_to_metadata_list (new_block : Nat) (head : Option Nat) (fuel : Nat)
    (s : AllocState) : Option Nat × AllocState :=
  match head with
  | none =>
      let s1 := updMd s new_block (fun x => { x with prev := none, next := none })
      (some new_block, s1)
  | some _ =>
      match get_last_metadata_block s fuel head with
      | none => (head, s)
      | some last =>
          let s1 := updMd s last (fun x => { x with next := some new_block })
          let s2 := updMd s1 new_block
            (fun x => { x with prev := some last, next := none })
          (head, s2)

/-- Source lines 307-336: the body of `insert_block_to_bin`'s for-loop over a
nonempty bucket.  `block` is the current node, `nbsize` the new block's size
(re-read unchanged by the C code at every iteration), `idx` the bucket. -/
def bin_insert_loop (new_block nbsize idx : Nat) :
    Nat → Nat → AllocState → AllocState
  | 0, _, s => s
  | fuel + 1, block, s =>
    match md s block with
    | none => s
    | some m =>
      if nbsize ≤ m.size then
        match m.bin_prev with
        | none =>
            let s1 := updMd s block (fun x => { x with bin_prev := some new_block })
            let s2 := updMd s1 new_block
              (fun x => { x with bin_next := some block, bin_prev := none })
            binSet s2 idx (some new_block)
        | some pr =>
            let s1 := updMd s pr (fun x => { x with bin_next := some new_block })
            let s2 := updMd s1 new_block
              (fun x => { x with bin_prev := some pr, bin_next := some block })
            updMd s2 block (fun x => { x with bin_prev := some new_block })
      else
        match m.bin_next with
        | some nxt => bin_insert_loop new_block nbsize idx fuel nxt s
        | none =>
            let s1 := updMd s new_block
              (fun x => { x with bin_next := none, bin_prev := some block })
            let s2 := updMd s1 block (fun x => { x with bin_next := some new_block })
            updMd s2 new_block (fun x => { x with is_free := true })

/-- Source lines 295-337: insert `new_block` into the bucket selected by its
current size, keeping the bucket sorted by ascending size (insertion before
the first node of size ≥ the new block's size). -/
def insert_block_to_bin (new_block : Nat) (fuel : Nat) (s : AllocState) : AllocState :=
  match md s new_block with
  | none => s
  | some nm =>
    let idx := GET_BIN_ENTRY nm.size
    match binGet s idx with
    | none =>
        let s1 := updMd s new_block
          (fun x => { x with bin_prev := none, bin_next := none })
        binSet s1 idx (some new_block)
    | some head => bin_insert_loop new_block nm.size idx fuel head s

/-- Source lines 349-368: split `block` at payload size `size`; the remainder
becomes a fresh free block immediately after it, linked into the address chain
and the bins. -/
def cut_block (block size : Nat) (remove_bin : Bool) (fuel : Nat)
    (s : AllocState) : AllocState :=
  let s0 := if remove_bin then remove_from_bin block s else s
  match md s0 block with
  | none => s0
  | some m =>
    let new_block_size := m.size - size
    let new_block := block + size + sizeof_malloc_metadata_t
    let s1 := putMd s0 new_block
      { size := new_block_size - sizeof_malloc_metadata_t, is_free := true,
        next := m.next, prev := some block, bin_next := none, bin_prev := none }
    let s2 := insert_block_to_bin new_block fuel s1
    let s3 :=
      match m.next with
      | none => s2
      | some nx => updMd s2 nx (fun x => { x with prev := some new_block })
    updMd s3 block (fun x =>
      { x with next := some new_block, is_free := false, size := size,
               bin_next := none, bin_prev := none })

/-- Source lines 394-408: the inner loop of `get_free_metadata_block`.
Translated exactly: the iterator is `METADATA_FOR_EACH` (line 125), which
advances along the address-chain `next` pointers, not `bin_next`, and the
body never tests `is_free`. -/
def gfmb_walk (size : Nat) : Nat → Option Nat → AllocState →
    Option Nat × AllocState
  | _, none, s => (none, s)
  | 0, some _, s => (none, s)
  | fuel + 1, some block, s =>
    match md s block with
    | none => (none, s)
    | some m =>
      if size ≤ m.size then
        if IS_LARGE_ENOUGH m.size size then
          let s1 := cut_block block size true fuel s
          let s2 := updMd s1 block (fun x => { x with is_free := false })
          (some block, s2)
        else
          let s1 := remove_from_bin block s
          let s2 := updMd s1 block (fun x => { x with is_free := false })
          (some block, s2)
      else gfmb_walk size fuel m.next s

/-- Source lines 391-409: scan buckets `i, i+1, ...` while `i < BIN_SIZE`;
`count` is the number of buckets still to visit. -/
def gfmb_scan (size fuel : Nat) : Nat → Nat → AllocState →
    Option Nat × AllocState
  | 0, _, s => (none, s)
  | count + 1, i, s =>
    match binGet s i with
    | none => gfmb_scan size fuel count (i + 1) s
    | some head =>
      match gfmb_walk size fuel (some head) s with
      | (some b, s1) => (some b, s1)
      | (none, s1) => gfmb_scan size fuel count (i + 1) s1

/-- Source lines 389-411: search the bins for a block of size ≥ `size`,
starting from bucket `GET_BIN_ENTRY size`. -/
def get_free_metadata_block (size fuel : Nat) (s : AllocState) :
    Option Nat × AllocState :=
  gfmb_scan size fuel (BIN_SIZE - GET_BIN_ENTRY size) (GET_BIN_ENTRY size) s

/-- Source lines 490-499: the fall-through of `smalloc` — fresh program-break
growth, header initialization, append to the brk chain. -/
def smalloc_fresh (size fuel : Nat) (s : AllocState) : Option Nat × AllocState :=
  match sbrkCall (size + sizeof_malloc_metadata_t) s with
  | (none, s1) => (none, s1)
  | (some ret, s1) =>
    let s2 := putMd s1 ret
      { size := size, is_free := false, next := none, prev := none,
        bin_next := none, bin_prev := none }
    let hs := insert_to_metadata_list ret s2.metadata_head fuel s2
    let s3 := { hs.2 with metadata_head := hs.1 }
    (some (ret + sizeof_malloc_metadata_t), s3)

/-- Source lines 433-500: `smalloc`.  Rejection, alignment, mmap path for
aligned sizes ≥ 128 KB, bin search, tail extension of a free last block
(with the source's manual bucket unlink, lines 473-484), fresh growth. -/
def smalloc (size : Nat) (fuel : Nat) (s : AllocState) : Option Nat × AllocState :=
  if size > MAX_MALLOC_4_SIZE ∨ size = 0 then (none, s)
  else
    let size := GET_SIZE_WITH_ALIGNMENT size
    if MIN_KB_BLOCK ≤ size then
      match mmapCall (size + sizeof_malloc_metadata_t) s with
      | (none, s1) => (none, s1)
      | (some ret, s1) =>
        let s2 := putMd s1 ret
          { size := size, is_free := false, next := none, prev := none,
            bin_next := none, bin_prev := none }
        let hs := insert_to_metadata_list ret s2.mmap_metadata_head fuel s2
        let s3 := { hs.2 with mmap_metadata_head := hs.1 }
        (some (ret + sizeof_malloc_metadata_t), s3)
    else
      match get_free_metadata_block size fuel s with
      | (some freed, s1) => (some (freed + sizeof_malloc_metadata_t), s1)
      | (none, s1) =>
        match get_last_metadata_block s1 fuel s1.metadata_head with
        | some last =>
          match md s1 last with
          | some lm =>
            if lm.is_free then
              match sbrkCall (GET_SIZE_WITH_ALIGNMENT size - lm.size) s1 with
              | (none, s2) => (none, s2)
              | (some _, s2) =>
                let s3 :=
                  match lm.bin_prev with
                  | none => binSet s2 (GET_BIN_ENTRY lm.size) lm.bin_next
                  | some bp =>
                    let t := updMd s2 bp (fun x => { x with bin_next := lm.bin_next })
                    match lm.bin_next with
                    | none => t
                    | some bn => updMd t bn (fun x => { x with bin_prev := lm.bin_prev })
                let s4 := updMd s3 last
                  (fun x => { x with is_free := false, size := size })
                (some (last + sizeof_malloc_metadata_t), s4)
            else smalloc_fresh size fuel s1
          | none => smalloc_fresh size fuel s1
        | none => smalloc_fresh size fuel s1

/-- Source lines 523-532: `scalloc` — `smalloc (num * size)`, then
`memset(res, 0, num * size)` on success. -/
def scalloc (num size fuel : Nat) (s : AllocState) : Option Nat × AllocState :=
  match smalloc (num * size) fuel s with
  | (some res, s1) => (some res, memsetZero res (num * size) s1)
  | (none, s1) => (none, s1)

/-- Source lines 548-601: `sfree`.  Mapped blocks are unlinked and unmapped;
brk blocks are binned and then merged with a free `next` and/or a free `prev`,
re-reading every pointer exactly where the C statements do. -/
def sfree (p : Option Nat) (fuel : Nat) (s : AllocState) : AllocState :=
  match p with
  | none => s
  | some pp =>
    let to_free := pp - sizeof_malloc_metadata_t
    match md s to_free with
    | none => s
    | some m =>
      if MIN_KB_BLOCK ≤ m.size then
        let hs := remove_from_list to_free s.mmap_metadata_head s
        let s1 := { hs.2 with mmap_metadata_head := hs.1 }
        { s1 with mem := delMd s1.mem to_free }
      else
        let s1 := insert_block_to_bin to_free fuel s
        -- try to merge with next (lines 568-582)
        let s2 :=
          match md s1 to_free with
          | none => s1
          | some m1 =>
            match m1.next with
            | none => s1
            | some t =>
              match md s1 t with
              | none => s1
              | some tm =>
                if tm.is_free then
                  let a1 := updMd s1 to_free (fun x => { x with next := tm.next })
                  let a2 :=
                    match tm.next with
                    | none => a1
                    | some tn => updMd a1 tn (fun x => { x with prev := some to_free })
                  let a3 := remove_from_bin t a2
                  let a4 := remove_from_bin to_free a3
                  let a5 := updMd a4 to_free (fun x =>
                    { x with size := x.size + (tm.size + sizeof_malloc_metadata_t) })
                  insert_block_to_bin to_free fuel a5
                else s1
        -- try to merge with prev (lines 585-597)
        let s3 :=
          match md s2 to_free with
          | none => s2
          | some m2 =>
            match m2.prev with
            | none => s2
            | some pr =>
              match md s2 pr with
              | none => s2
              | some prm =>
                if prm.is_free then
                  let b1 := updMd s2 pr (fun x => { x with next := m2.next })
                  let b2 :=
                    match m2.next with
                    | none => b1
                    | some n2 => updMd b1 n2 (fun x => { x with prev := some pr })
                  let b3 := remove_from_bin pr b2
                  let b4 := remove_from_bin to_free b3
                  let tfsize := ((md b4 to_free).map MallocMetadata.size).getD 0
                  let b5 := updMd b4 pr (fun x =>
                    { x with size := x.size + (tfsize + sizeof_malloc_metadata_t) })
                  insert_block_to_bin pr fuel b5
                else s2
        updMd s3 to_free (fun x => { x with is_free := true })

/-- Source lines 658-671 (repeated verbatim at 694-707, 729-742, 767-780):
after a split inside `srealloc`, merge the split-off successor of `r` with
its own successor when both are free. -/
def srealloc_post_cut (r fuel : Nat) (s : AllocState) : AllocState :=
  match md s r with
  | none => s
  | some rm =>
    match rm.next with
    | none => s
    | some base =>
      match md s base with
      | none => s
      | some bm =>
        if bm.is_free then
          match bm.next with
          | none => s
          | some base_next =>
            match md s base_next with
            | none => s
            | some bnm =>
              if bnm.is_free then
                let a1 := remove_from_bin base s
                let a2 := remove_from_bin base_next a1
                let a3 := updMd a2 base (fun x => { x with next := bnm.next })
                let a4 :=
                  match bnm.next with
                  | none => a3
                  | some bnn => updMd a3 bnn (fun x => { x with prev := some base })
                let a5 := updMd a4 base (fun x =>
                  { x with size := x.size + (sizeof_malloc_metadata_t + bnm.size) })
                insert_block_to_bin base fuel a5
              else s
        else s

/-- Source lines 786-828: branches (e) and (f) of `srealloc`.  Branch (e)
fires when the block is the chain tail: a free `prev` is absorbed **before**
the break extension is attempted, and a failing `sbrk` returns null leaving
the merge in place.  Branch (f) is the allocate-copy-free fallback. -/
def srealloc_tail (old_ptr op size fuel : Nat) (s : AllocState)
    (om : MallocMetadata) : Option Nat × AllocState :=
  match om.next with
  | none =>
    match om.prev, (om.prev.bind (md s)) with
    | some pr, some prm =>
      if prm.is_free then
        let s1 := remove_from_bin pr s
        let s2 := updMd s1 pr (fun x => { x with is_free := false })
        let s3 := updMd s2 pr (fun x => { x with next := om.next })
        let s4 := updMd s3 pr (fun x =>
          { x with size := x.size + (om.size + sizeof_malloc_metadata_t) })
        let rsz := ((md s4 pr).map MallocMetadata.size).getD 0
        match sbrkCall (size - rsz) s4 with
        | (none, s5) => (none, s5)
        | (some _, s5) =>
          let s6 := updMd s5 pr (fun x => { x with size := size })
          let s7 := memmoveBytes (pr + sizeof_malloc_metadata_t) op om.size s6
          (some (pr + sizeof_malloc_metadata_t), s7)
      else
        match sbrkCall (size - om.size) s with
        | (none, s1) => (none, s1)
        | (some _, s1) =>
          let s2 := updMd s1 old_ptr (fun x => { x with size := size })
          (some op, s2)
    | _, _ =>
      match sbrkCall (size - om.size) s with
      | (none, s1) => (none, s1)
      | (some _, s1) =>
        let s2 := updMd s1 old_ptr (fun x => { x with size := size })
        (some op, s2)
  | some _ =>
    -- branch (f), lines 820-828
    match smalloc size fuel s with
    | (some ret, s1) =>
      let osz := ((md s1 old_ptr).map MallocMetadata.size).getD 0
      let s2 := memmoveBytes ret op (min size osz) s1
      let s3 := sfree (some op) fuel s2
      (some ret, s3)
    | (none, s1) =>
      let s2 := sfree (some op) fuel s1
      (none, s2)

/-- Source lines 748-783 with the remaining ladder: branch (d) of `srealloc`
(absorb both neighbors into `prev`); falls through to `srealloc_tail`. -/
def srealloc_three (old_ptr op size fuel : Nat) (s : AllocState)
    (om : MallocMetadata) : Option Nat × AllocState :=
  match om.prev, (om.prev.bind (md s)), om.next, (om.next.bind (md s)) with
  | some pr, some prm, some nx, some nxm =>
    if prm.is_free ∧ nxm.is_free ∧ size ≤ prm.size + nxm.size + om.size then
      let s1 := remove_from_bin pr s
      let s2 := remove_from_bin nx s1
      let s3 := updMd s2 pr (fun x => { x with is_free := false })
      let s4 := updMd s3 pr (fun x => { x with next := nxm.next })
      let s5 :=
        match nxm.next with
        | none => s4
        | some nn => updMd s4 nn (fun x => { x with prev := some pr })
      let s6 := updMd s5 pr (fun x =>
        { x with size := x.size + (om.size + nxm.size + 2 * sizeof_malloc_metadata_t) })
      let s7 := memmoveBytes (pr + sizeof_malloc_metadata_t) op (min size om.size) s6
      let rsz := ((md s7 pr).map MallocMetadata.size).getD 0
      if IS_LARGE_ENOUGH rsz size then
        let s8 := cut_block pr size false fuel s7
        let s9 := srealloc_post_cut pr fuel s8
        (some (pr + sizeof_malloc_metadata_t), s9)
      else (some (pr + sizeof_malloc_metadata_t), s7)
    else srealloc_tail old_ptr op size fuel s om
  | _, _, _, _ => srealloc_tail old_ptr op size fuel s om

/-- Source lines 714-745 with the remaining ladder: branch (c) of `srealloc`
(absorb the free right neighbor); falls through to `srealloc_three`. -/
def srealloc_right (old_ptr op size fuel : Nat) (s : AllocState)
    (om : MallocMetadata) : Option Nat × AllocState :=
  match om.next, (om.next.bind (md s)) with
  | some nx, some nxm =>
    if nxm.is_free ∧ size ≤ nxm.size + om.size then
      let s1 := remove_from_bin nx s
      let s2 := updMd s1 old_ptr (fun x => { x with is_free := false })
      let s3 := updMd s2 old_ptr (fun x => { x with next := nxm.next })
      let s4 :=
        match nxm.next with
        | none => s3
        | some nn => updMd s3 nn (fun x => { x with prev := some old_ptr })
      let s5 := updMd s4 old_ptr (fun x =>
        { x with size := x.size + (nxm.size + sizeof_malloc_metadata_t) })
      let osz := ((md s5 old_ptr).map MallocMetadata.size).getD 0
      if IS_LARGE_ENOUGH osz size then
        let s6 := cut_block old_ptr size false fuel s5
        let s7 := srealloc_post_cut old_ptr fuel s6
        (some op, s7)
      else (some op, s5)
    else srealloc_three old_ptr op size fuel s om
  | _, _ => srealloc_three old_ptr op size fuel s om

/-- Source lines 625-831: `srealloc`.  Rejection and alignment, the mmap
branch, then the brk ladder: reuse in place (a), absorb the free left
neighbor (b), absorb the free right neighbor (c), absorb both (d), extend the
chain tail through the program break (e), and the allocate-copy-free
fallback (f).  In branch (f) the C code passes `smalloc`'s result straight to
`memmove` and then frees `oldp` unconditionally; when `smalloc` failed the
copy dereferences null (undefined behaviour) and the free still happens, so
the model performs the free and skips only the null copy. -/
def srealloc (oldp : Option Nat) (size0 fuel : Nat) (s : AllocState) :
    Option Nat × AllocState :=
  if size0 > MAX_MALLOC_4_SIZE ∨ size0 = 0 then (none, s)
  else
    let size := GET_SIZE_WITH_ALIGNMENT size0
    match oldp with
    | none => smalloc size fuel s
    | some op =>
      let old_ptr := op - sizeof_malloc_metadata_t
      match md s old_ptr with
      | none => (none, s)
      | some om =>
        if MIN_KB_BLOCK ≤ om.size then
          -- oldp is mmap (lines 641-648)
          match smalloc size fuel s with
          | (none, s1) => (none, s1)
          | (some ret, s1) =>
            let osz := ((md s1 old_ptr).map MallocMetadata.size).getD 0
            let s2 := memmoveBytes ret op (min osz size) s1
            let s3 := sfree (some op) fuel s2
            (some ret, s3)
        else if size ≤ om.size then
          -- case a: reuse in place (lines 653-674)
          if IS_LARGE_ENOUGH om.size size then
            let s1 := cut_block old_ptr size true fuel s
            let s2 := srealloc_post_cut old_ptr fuel s1
            (some op, s2)
          else (some op, s)
        else
          match om.prev, (om.prev.bind (md s)) with
          | some pr, some prm =>
            if prm.is_free ∧ size ≤ prm.size + om.size then
              -- case b: absorb the left neighbor (lines 677-711)
              let s1 := remove_from_bin pr s
              let s2 := updMd s1 pr (fun x => { x with is_free := false })
              let s3 := updMd s2 pr (fun x => { x with next := om.next })
              let s4 :=
                match om.next with
                | none => s3
                | some nx => updMd s3 nx (fun x => { x with prev := some pr })
              let s5 := updMd s4 pr (fun x =>
                { x with size := x.size + (om.size + sizeof_malloc_metadata_t) })
              let s6 := memmoveBytes (pr + sizeof_malloc_metadata_t) op
                (min size om.size) s5
              let rsz := ((md s6 pr).map MallocMetadata.size).getD 0
              if IS_LARGE_ENOUGH rsz size then
                let s7 := cut_block pr size false fuel s6
                let s8 := srealloc_post_cut pr fuel s7
                (some (pr + sizeof_malloc_metadata_t), s8)
              else (some (pr + sizeof_malloc_metadata_t), s6)
            else srealloc_right old_ptr op size fuel s om
          | _, _ => srealloc_right old_ptr op size fuel s om

/-- Generic chain traversal shared by the introspection counters (each source
counter is one `METADATA_FOR_EACH` loop accumulating a per-block weight). -/
def chain_sum (s : AllocState) (f : MallocMetadata → Nat) :
    Nat → Option Nat → Nat
  | _, none => 0
  | 0, some _ => 0
  | fuel + 1, some a =>
    match md s a with
    | none => 0
    | some m => f m + chain_sum s f fuel m.next

/-- Source lines 841-849. -/
def num_free_blocks (fuel : Nat) (s : AllocState) : Nat :=
  chain_sum s (fun m => if m.is_free then 1 else 0) fuel s.metadata_head

/-- Source lines 860-869. -/
def num_free_bytes (fuel : Nat) (s : AllocState) : Nat :=
  chain_sum s (fun m => if m.is_free then m.size else 0) fuel s.metadata_head

/-- Source lines 878-891: blocks of both chains. -/
def num_allocated_blocks (fuel : Nat) (s : AllocState) : Nat :=
  chain_sum s (fun _ => 1) fuel s.metadata_head
    + chain_sum s (fun _ => 1) fuel s.mmap_metadata_head

/-- Source lines 902-916: payload bytes of both chains. -/
def num_allocated_bytes (fuel : Nat) (s : AllocState) : Nat :=
  chain_sum s (fun m => m.size) fuel s.metadata_head
    + chain_sum s (fun m => m.size) fuel s.mmap_metadata_head

/-- Source lines 926-939: one `sizeof(malloc_metadata_t)` per block of both
chains. -/
def num_meta_data_bytes (fuel : Nat) (s : AllocState) : Nat :=
  chain_sum s (fun _ => sizeof_malloc_metadata_t) fuel s.metadata_head
    + chain_sum s (fun _ => sizeof_malloc_metadata_t) fuel s.mmap_metadata_head

/-- Source lines 949-952. -/
def size_meta_data : Nat := sizeof_malloc_metadata_t

/-- The empty allocator process state: no blocks, empty bins, an aligned
initial program break, a disjoint mmap arena, and an all-success OS oracle. -/
def initState : AllocState :=
  { mem := [], metadata_head := none, mmap_metadata_head := none,
    free_block_bin := [], data := [], brk := 1000000, mmap_base := 1000000000,
    sbrk_fails := [], mmap_fails := [] }

/-- The bucket contents seen by following `bin_next` links from `o`. -/
def binListFrom (s : AllocState) : Nat → Option Nat → List Nat
  | _, none => []
  | 0, some _ => []
  | fuel + 1, some a =>
    a :: (match md s a with
          | none => []
          | some m => binListFrom s fuel m.bin_next)

/-- Whether block `a` is linked in any bin bucket of `s` (every bucket that
was ever written has an entry in the association list, so scanning the
entries covers all buckets). -/
def inSomeBinB (s : AllocState) (fuel a : Nat) : Bool :=
  s.free_block_bin.any (fun p => (binListFrom s fuel p.2).contains a)

/-- Scenario A: allocate 1048, 2000, 1000, 100 bytes (blocks A = 1000000,
B = 1001096, C = 1003144, D = 1004192), free A and C, then allocate 1500.
Bucket 1's head is then the free block A with `A.next = B`; the scan of
`get_free_metadata_block` walks `next` off A onto the in-use block B and
splits it, creating the free remainder N = 1002648 right before the free
block C. -/
def stA1 := smalloc 1048 300 initState

/-- Scenario A, step 2. -/
def stA2 := smalloc 2000 300 stA1.2

/-- Scenario A, step 3. -/
def stA3 := smalloc 1000 300 stA2.2

/-- Scenario A, step 4. -/
def stA4 := smalloc 100 300 stA3.2

/-- Scenario A, step 5: free A. -/
def stA5 := sfree stA1.1 300 stA4.2

/-- Scenario A, step 6: free C.  This is the state the final allocation
runs from. -/
def stA6 := sfree stA3.1 300 stA5

/-- Scenario B: allocate 200, 100, 500, 304, 100, 800, 100 bytes (blocks
X = 1000000, P = 1000248, Y = 1000400, N = 1000952, W = 1001304,
Z = 1001456, T = 1002304), then free X, N and Z, so bucket 0 holds
X → N → Z.  Freeing Y then merges Y with its address-neighbor N, and
`remove_from_bin` on the mid-bucket node N truncates bucket 0. -/
def stB1 := smalloc 200 300 initState

/-- Scenario B, step 2. -/
def stB2 := smalloc 100 300 stB1.2

/-- Scenario B, step 3. -/
def stB3 := smalloc 500 300 stB2.2

/-- Scenario B, step 4. -/
def stB4 := smalloc 304 300 stB3.2

/-- Scenario B, step 5. -/
def stB5 := smalloc 100 300 stB4.2

/-- Scenario B, step 6. -/
def stB6 := smalloc 800 300 stB5.2

/-- Scenario B, step 7. -/
def stB7 := smalloc 100 300 stB6.2

/-- Scenario B, step 8: free X. -/
def stB8 := sfree stB1.1 300 stB7.2

/-- Scenario B, step 9: free N. -/
def stB9 := sfree stB4.1 300 stB8

/-- Scenario B, step 10: free Z.  Bucket 0 now holds X → N → Z. -/
def stB10 := sfree stB6.1 300 stB9

/-- Scenario C: allocate 1048, 2000, 100 (blocks H = 1000000, M = 1001096,
T = 1003144) and free H, giving a reachable, invariant-respecting state in
which bucket 1's head H is followed (via `next`) by the larger in-use
block M. -/
def stC1 := smalloc 1048 300 initState

/-- Scenario C, step 2. -/
def stC2 := smalloc 2000 300 stC1.2

/-- Scenario C, step 3. -/
def stC3 := smalloc 100 300 stC2.2

/-- Scenario C, step 4: free H. -/
def stC4 := sfree stC1.1 300 stC3.2

/-- Scenario C, step 5: `p = allocate 1500` — the scan hands out the in-use
block M (payload 1001144). -/
def stC5 := smalloc 1500 300 stC4

/-- Scenario C, step 6: `free p` — M merges right with the split remainder
and left into the still-free H. -/
def stC6 := sfree stC5.1 300 stC5.2

/-- Scenario C, step 7: `q = allocate 1500` — the merged block at H's base
is split, so `q` = 1000048 ≠ `p`. -/
def stC7 := smalloc 1500 300 stC6

/-- Scenario D: allocate 200 and 100 (X = 1000000, Y = 1000248, the chain
tail), free X, then ask `srealloc` to grow Y to 600 bytes while the break
extension fails. -/
def stD1 := smalloc 200 300 initState

/-- Scenario D, step 2. -/
def stD2 := smalloc 100 300 stD1.2

/-- Scenario D, step 3: free X. -/
def stD3 := sfree stD1.1 300 stD2.2

/-- Scenario D, step 4: the same state with an OS oracle on which the next
program-break extension fails. -/
def stD3f : AllocState := { stD3 with sbrk_fails := [true] }

/-- Scenario D, step 5: the failing reallocation. -/
def stD4 := srealloc stD2.1 600 300 stD3f

/-- Scenario E: allocate 131000 twice (both below the 128 KB = 131072
threshold, so both are brk blocks), then free both.  The second free merges
them into one free block of 262048 payload bytes. -/
def stE1 := smalloc 131000 300 initState

/-- Scenario E, step 2. -/
def stE2 := smalloc 131000 300 stE1.2

/-- Scenario E, step 3. -/
def stE3 := sfree stE1.1 300 stE2.2

/-- Scenario E, step 4: the merging free. -/
def stE4 := sfree stE2.1 300 stE3

/-- Scenario F: allocate 552 and 104, free the first, then call
`scalloc 1 400`: the aligned request is 400, the recycled block keeps its
552-byte payload (552 < 400 + 48 + 128, so no split). -/
def stF1 := smalloc 552 300 initState

/-- Scenario F, step 2. -/
def stF2 := smalloc 100 300 stF1.2

/-- Scenario F, step 3: free the 552-byte block. -/
def stF3 := sfree stF1.1 300 stF2.2

/-- Scenario F, step 4: the calloc call under scrutiny. -/
def stF4 := scalloc 1 400 300 stF3

/-- Byte-map read-after-write. -/
theorem getByteMap_setByteMap (l : List (Nat × Nat)) (a v b : Nat) :
    getByteMap (setByteMap l a v) b = if b = a then v else getByteMap l b := by
  induction l with
  | nil => simp [setByteMap, getByteMap]
  | cons hd tl ih =>
    obtain ⟨c, w⟩ := hd
    simp only [setByteMap]
    by_cases hac : a = c
    · subst hac
      simp only [if_pos rfl, getByteMap]
      by_cases hba : b = a
      · simp [hba]
      · simp [hba]
    · rw [if_neg hac]
      by_cases hbc : b = c
      · subst hbc
        have hba : b ≠ a := by
          intro hh
          exact hac hh.symm
        simp [getByteMap, hba]
      · simp [getByteMap, hbc, ih]

/-- `memsetZero` leaves bytes outside `[p, p + n)` alone. -/
theorem memsetZero_frame (p : Nat) :
    ∀ (n : Nat) (s : AllocState) (b : Nat), (b < p ∨ p + n ≤ b) →
      getByte (memsetZero p n s) b = getByte s b := by
  intro n
  induction n with
  | zero => intro s b _; rfl
  | succ k ih =>
    intro s b hb
    have hb' : b < p ∨ p + k ≤ b := by omega
    have hbk : ¬ b = p + k := by omega
    simp only [memsetZero]
    rw [ih _ _ hb']
    simp [getByte, setByte, getByteMap_setByteMap, hbk]

/-- `memsetZero` writes zeros on all of `[p, p + n)`. -/
theorem memsetZero_zeroes (p : Nat) :
    ∀ (n : Nat) (s : AllocState) (i : Nat), i < n →
      getByte (memsetZero p n s) (p + i) = 0 := by
  intro n
  induction n with
  | zero => intro s i h; omega
  | succ k ih =>
    intro s i h
    by_cases hik : i < k
    · simpa [memsetZero] using ih (setByte s (p + k) 0) i hik
    · have hik2 : i = k := by omega
      rw [hik2]
      simp only [memsetZero]
      rw [memsetZero_frame p k _ _ (Or.inr (Nat.le_refl _))]
      simp [getByte, setByte, getByteMap_setByteMap]

/-- A chain traversal with a constant weight is the weight times the count. -/
theorem chain_sum_const (s : AllocState) (c : Nat) :
    ∀ (fuel : Nat) (o : Option Nat),
      chain_sum s (fun _ => c) fuel o = c * chain_sum s (fun _ => 1) fuel o := by
  intro fuel
  induction fuel with
  | zero => intro o; cases o <;> simp [chain_sum]
  | succ k ih =>
    intro o
    cases o with
    | none => simp [chain_sum]
    | some a =>
      simp only [chain_sum]
      cases hmd : md s a with
      | none => simp [hmd]
      | some m => simp [hmd, ih, Nat.mul_add, Nat.mul_one]

/-- Claim C10: in every state (not only reachable ones), the metadata-byte
counter equals the block counter times the per-header size, and
`size_meta_data` is the fixed header-size constant. -/
theorem c10_meta_bytes_eq_blocks_times_header :
    (∀ (fuel : Nat) (s : AllocState),
        num_meta_data_bytes fuel s = num_allocated_blocks fuel s * size_meta_data) ∧
    size_meta_data = sizeof_malloc_metadata_t := by
  refine ⟨?_, rfl⟩
  intro fuel s
  unfold num_meta_data_bytes num_allocated_blocks size_meta_data
  rw [chain_sum_const s sizeof_malloc_metadata_t fuel s.metadata_head,
      chain_sum_const s sizeof_malloc_metadata_t fuel s.mmap_metadata_head]
  ring

/-- Claim C7: `smalloc` and `srealloc` reject a zero or over-`10^8` request
with a null result and an unchanged state, and the ceiling test runs on the
raw request before alignment: `10^8 − 3` aligns up to exactly `10^8` and the
call proceeds (through the mapping path) instead of being rejected. -/
theorem c7_rejects_and_ceiling_before_alignment :
    (∀ (s : AllocState) (n fuel : Nat), n = 0 ∨ MAX_MALLOC_4_SIZE < n →
        smalloc n fuel s = (none, s)) ∧
    (∀ (s : AllocState) (p : Option Nat) (n fuel : Nat),
        n = 0 ∨ MAX_MALLOC_4_SIZE < n → srealloc p n fuel s = (none, s)) ∧
    GET_SIZE_WITH_ALIGNMENT (10 ^ 8 - 3) = 10 ^ 8 ∧
    (smalloc (10 ^ 8 - 3) 300 initState).1 = some 1000000048 := by
  refine ⟨?_, ?_, by decide, by decide⟩
  · intro s n fuel h
    unfold smalloc
    rw [if_pos (by omega)]
  · intro s p n fuel h
    unfold srealloc
    rw [if_pos (by omega)]

/-- Witness for C7 at concrete inputs. -/
theorem c7_rejects_witness :
    smalloc 0 5 initState = (none, initState) ∧
    srealloc none 100000001 5 initState = (none, initState) :=
  ⟨c7_rejects_and_ceiling_before_alignment.1 initState 0 5 (Or.inl rfl),
   c7_rejects_and_ceiling_before_alignment.2.1 initState none 100000001 5
     (Or.inr (by decide))⟩

/-- Claim C1 fails on the code (the claim itself matches the spec's intent;
`remove_from_bin`, unlike `remove_from_list`, lacks the middle-node case and
truncates the bucket): in reachable scenario B, bucket 0 holds X → N → Z;
freeing Y merges it with N, whose mid-bucket removal cuts the bucket after X,
after which Z is a free brk block linked in no bucket at all. -/
theorem c1_free_block_dropped_from_its_bucket :
    binListFrom stB10 300 (binGet stB10 0) = [1000000, 1000952, 1001456] ∧
    (md stB10 1001456).map MallocMetadata.is_free = some true ∧
    (md (sfree stB3.1 300 stB10) 1001456).map MallocMetadata.is_free = some true ∧
    inSomeBinB (sfree stB3.1 300 stB10) 300 1001456 = false := by
  exact ⟨by decide, by decide, by decide, by decide⟩

/-- Claim C2 fails on the code: `get_free_metadata_block` iterates a bucket
with `METADATA_FOR_EACH`, which follows the address-chain `next` pointers and
never checks `is_free`.  In reachable scenario A, the request 1500 scans
bucket `GET_BIN_ENTRY 1504 = 1`, whose head is the free block A = 1000000;
the walk steps off A onto A's address-successor B = 1001096, a block that is
in use and linked in no bucket, and hands B out. -/
theorem c2_bin_scan_returns_in_use_block :
    GET_BIN_ENTRY (GET_SIZE_WITH_ALIGNMENT 1500) = 1 ∧
    binGet stA6 1 = some 1000000 ∧
    (md stA6 1000000).map (fun m => (m.is_free, m.next)) =
      some (true, some 1001096) ∧
    (md stA6 1001096).map MallocMetadata.is_free = some false ∧
    inSomeBinB stA6 300 1001096 = false ∧
    (smalloc 1500 300 stA6).1 = some (1001096 + sizeof_malloc_metadata_t) := by
  exact ⟨by decide, by decide, by decide, by decide, by decide, by decide⟩

/-- Claim C3 fails on the code: in reachable scenario D the tail block Y has
the free predecessor X; `srealloc(Y, 600)` absorbs X (unbinning it, marking
it used, growing it to 352 bytes) **before** asking for the break extension,
so when `sbrk` fails the call returns null with the merge left in place
instead of restoring the pre-call state. -/
theorem c3_failed_tail_extension_mutates_state :
    stD4.1 = none ∧
    (md stD3f 1000000).map (fun m => (m.size, m.is_free)) = some (200, true) ∧
    binGet stD3f 0 = some 1000000 ∧
    (md stD4.2 1000000).map (fun m => (m.size, m.is_free)) = some (352, false) ∧
    binGet stD4.2 0 = none := by
  exact ⟨by decide, by decide, by decide, by decide, by decide⟩

/-- Claim C4 counterexample: `GET_BIN_ENTRY` has no clamp.  In reachable
scenario E, coalescing two freed 131000-byte brk blocks produces a free block
of 262048 payload bytes, and its re-insertion accesses bin index
`GET_BIN_ENTRY 262048 = 255`, which is not below `BIN_SIZE = 128`: the
source writes `free_block_bin[255]`, out of bounds. -/
theorem c4_merged_block_bin_index_out_of_bounds :
    (md stE4 1000000).map (fun m => (m.size, m.is_free)) = some (262048, true) ∧
    GET_BIN_ENTRY 262048 = 255 ∧
    ¬ GET_BIN_ENTRY 262048 < BIN_SIZE ∧
    binGet stE4 255 = some 1000000 := by
  exact ⟨by decide, by decide, by decide, by decide⟩

/-- Claim C4 (amended): bin indexing uses the unclamped `floor(size / 1024)`,
which stays within the 128-entry array exactly for block sizes below the
128 KB threshold; coalesced brk blocks can reach or exceed that threshold and
then index out of bounds. -/
theorem c4_bin_index_in_bounds_below_threshold (sz : Nat)
    (h : sz < MIN_KB_BLOCK) : GET_BIN_ENTRY sz < BIN_SIZE := by
  unfold GET_BIN_ENTRY BIN_SIZE KB
  unfold MIN_KB_BLOCK KB at h
  omega

/-- Witness for the amended C4 at the largest aligned brk size. -/
theorem c4_bin_index_in_bounds_witness :
    131064 < MIN_KB_BLOCK ∧ GET_BIN_ENTRY 131064 < BIN_SIZE :=
  ⟨by decide, c4_bin_index_in_bounds_below_threshold 131064 (by decide)⟩

/-- Claim C5 fails on the code: in reachable scenario A, the public call
`smalloc 1500` splits the in-use block B (handed out by the broken bucket
walk), and the split remainder N = 1002648 (448 bytes, free) sits
immediately before the free block C = 1003144 with no coalescing: two
address-adjacent brk blocks are both free after the operation. -/
theorem c5_adjacent_free_brk_blocks_after_allocate :
    (md (smalloc 1500 300 stA6).2 1002648).map
        (fun m => (m.size, m.is_free, m.next)) = some (448, true, some 1003144) ∧
    1002648 + sizeof_malloc_metadata_t + 448 = 1003144 ∧
    (md (smalloc 1500 300 stA6).2 1003144).map MallocMetadata.is_free =
      some true := by
  exact ⟨by decide, by decide, by decide⟩

/-- Claim C8 counterexample: `scalloc 1 400` in reachable scenario F recycles
the whole 552-byte free block (552 < 400 + 48 + 128 forbids a split), so the
returned payload's length is 552, not the aligned request
`GET_SIZE_WITH_ALIGNMENT (1 * 400) = 400`; the `memset` also only covers
`1 * 400` bytes. -/
theorem c8_recycled_payload_exceeds_aligned_request :
    stF4.1 = some 1000048 ∧
    (md stF4.2 1000000).map MallocMetadata.size = some 552 ∧
    GET_SIZE_WITH_ALIGNMENT (1 * 400) = 400 ∧
    (552 : Nat) ≠ 400 := by
  exact ⟨by decide, by decide, by decide, by decide⟩

/-- Claim C8 (amended): whenever the underlying `smalloc (num * size)`
succeeds, `scalloc num size` returns the same pointer and zeroes exactly the
`num * size` requested bytes of the payload (not the aligned length, and not
the possibly larger recycled payload). -/
theorem c8_scalloc_zeroes_the_requested_bytes (num size fuel : Nat)
    (s : AllocState) (res : Nat)
    (h : (smalloc (num * size) fuel s).1 = some res) :
    scalloc num size fuel s
      = (some res, memsetZero res (num * size) (smalloc (num * size) fuel s).2) ∧
    ∀ i, i < num * size →
      getByte (scalloc num size fuel s).2 (res + i) = 0 := by
  have hs : smalloc (num * size) fuel s
      = (some res, (smalloc (num * size) fuel s).2) := by
    have := Prod.mk.eta (p := smalloc (num * size) fuel s)
    rw [← this, h]
  constructor
  · unfold scalloc
    rw [hs]
  · intro i hi
    unfold scalloc
    rw [hs]
    exact memsetZero_zeroes res (num * size) _ i hi

/-- Witness for the amended C8: a fresh 8-byte calloc, checking byte 3. -/
theorem c8_scalloc_zeroes_witness :
    scalloc 1 8 300 initState
      = (some 1000048, memsetZero 1000048 (1 * 8) (smalloc (1 * 8) 300 initState).2) ∧
    getByte (scalloc 1 8 300 initState).2 (1000048 + 3) = 0 :=
  ⟨(c8_scalloc_zeroes_the_requested_bytes 1 8 300 initState 1000048 (by decide)).1,
   (c8_scalloc_zeroes_the_requested_bytes 1 8 300 initState 1000048 (by decide)).2
     3 (by decide)⟩

/-- Claim C9 fails on the code: scenario C's state after four public calls
satisfies every data-model invariant, yet `p = allocate 1500` hands out the
in-use block M = 1001096 (payload 1001144); freeing `p` merges M left into
the still-free H = 1000000; and `q = allocate 1500` then returns payload
1000048 at H's base, so `q ≠ p`. -/
theorem c9_freed_block_not_recycled_in_place :
    stC5.1 = some 1001144 ∧
    stC7.1 = some 1000048 ∧
    stC5.1 ≠ stC7.1 := by
  exact ⟨by decide, by decide, by decide⟩

/-- The address-chain view of a header: everything except the bin links. -/
def chainFields (m : MallocMetadata) : Nat × Bool × Option Nat × Option Nat :=
  (m.size, m.is_free, m.next, m.prev)

/-- `binSegB s o L o'` holds when following `bin_next` from `o` passes exactly
through the addresses `L` and then continues at `o'`. -/
def binSegB (s : AllocState) : Option Nat → List Nat → Option Nat → Bool
  | o, [], o' => o == o'
  | o, a :: L, o' =>
    (o == some a) &&
      (match md s a with
       | none => false
       | some m => binSegB s m.bin_next L o')

/-- `binBackB s pr L` holds when the first element of `L` has `bin_prev = pr`
and every later element's `bin_prev` is its predecessor in `L`. -/
def binBackB (s : AllocState) : Option Nat → List Nat → Bool
  | _, [] => true
  | pr, a :: L =>
    (match md s a with
     | none => false
     | some m => m.bin_prev == pr) && binBackB s (some a) L

/-- The continuation pointer after walking `L` starting from `st`: the last
element of `L` (as a pointer), or `st` when `L` is empty. -/
def lastCont (st : Option Nat) : List Nat → Option Nat
  | [] => st
  | a :: L => lastCont (some a) L

/-- The abstract effect of the source's sorted bucket insertion: place `nb`
before the first listed block whose size (read in `s`) is ≥ `nbsize`,
else append it. -/
def binInsertAbs (s : AllocState) (nb nbsize : Nat) : List Nat → List Nat
  | [] => [nb]
  | a :: L =>
    match md s a with
    | none => [nb]
    | some m => if nbsize ≤ m.size then nb :: a :: L else a :: binInsertAbs s nb nbsize L

/-- Header-map read-after-write. -/
theorem getMd_setMd (l : List (Nat × MallocMetadata)) (a : Nat)
    (m : MallocMetadata) (c : Nat) :
    getMd (setMd l a m) c = if c = a then some m else getMd l c := by
  induction l with
  | nil => simp [setMd, getMd]
  | cons hd tl ih =>
    obtain ⟨b, mb⟩ := hd
    simp only [setMd]
    by_cases hab : a = b
    · subst hab
      simp only [if_pos rfl, getMd]
      by_cases hca : c = a
      · simp [hca]
      · simp [hca]
    · rw [if_neg hab]
      by_cases hcb : c = b
      · subst hcb
        have hca : c ≠ a := by
          intro hh
          exact hab hh.symm
        simp [getMd, hca]
      · simp [getMd, hcb, ih]

/-- State-level read-after-write. -/
theorem md_putMd (s : AllocState) (a : Nat) (m : MallocMetadata) (c : Nat) :
    md (putMd s a m) c = if c = a then some m else md s c := by
  unfold md putMd
  exact getMd_setMd s.mem a m c

/-- Reading after a field update. -/
theorem md_updMd (s : AllocState) (a : Nat) (f : MallocMetadata → MallocMetadata)
    (c : Nat) :
    md (updMd s a f) c = if c = a then (md s a).map f else md s c := by
  unfold updMd
  cases hm : md s a with
  | none =>
    by_cases hca : c = a
    · simp [hca, hm]
    · simp [hca]
  | some m =>
    rw [md_putMd]
    by_cases hca : c = a
    · simp [hca, hm]
    · simp [hca]

/-- Bin writes do not touch headers. -/
theorem md_binSet (s : AllocState) (i : Nat) (h : Option Nat) (a : Nat) :
    md (binSet s i h) a = md s a := rfl

/-- Header writes do not touch the bin array. -/
theorem binGet_putMd (s : AllocState) (a : Nat) (m : MallocMetadata) (i : Nat) :
    binGet (putMd s a m) i = binGet s i := rfl

/-- Field updates do not touch the bin array. -/
theorem binGet_updMd (s : AllocState) (a : Nat) (f : MallocMetadata → MallocMetadata)
    (i : Nat) : binGet (updMd s a f) i = binGet s i := by
  unfold updMd
  cases md s a <;> rfl

/-- Bin-array read-after-write. -/
theorem binLookup_binStore (l : List (Nat × Option Nat)) (i : Nat)
    (h : Option Nat) (j : Nat) :
    binLookup (binStore l i h) j = if j = i then h else binLookup l j := by
  induction l with
  | nil => simp [binStore, binLookup]
  | cons hd tl ih =>
    obtain ⟨k, hk⟩ := hd
    simp only [binStore]
    by_cases hik : i = k
    · subst hik
      simp only [if_pos rfl, binLookup]
      by_cases hji : j = i
      · simp [hji]
      · simp [hji]
    · rw [if_neg hik]
      by_cases hjk : j = k
      · subst hjk
        have hji : j ≠ i := by
          intro hh
          exact hik hh.symm
        simp [binLookup, hji]
      · simp [binLookup, hjk, ih]

/-- State-level bin read-after-write. -/
theorem binGet_binSet (s : AllocState) (i : Nat) (h : Option Nat) (j : Nat) :
    binGet (binSet s i h) j = if j = i then h else binGet s j := by
  unfold binGet binSet
  exact binLookup_binStore s.free_block_bin i h j

/-- A field update that only touches bin links preserves the chain view of
every header. -/
theorem md_updMd_chainFields (s : AllocState) (a : Nat)
    (g : MallocMetadata → MallocMetadata)
    (hg : ∀ m, chainFields (g m) = chainFields m) (c : Nat) :
    (md (updMd s a g) c).map chainFields = (md s c).map chainFields := by
  rw [md_updMd]
  by_cases hca : c = a
  · subst hca
    cases md s c with
    | none => simp
    | some m => simp [hg]
  · rw [if_neg hca]

/-- `remove_from_bin` never changes a header's size, free flag, or
address-chain links. -/
theorem remove_from_bin_chainFields (d : Nat) (s : AllocState) (c : Nat) :
    (md (remove_from_bin d s) c).map chainFields = (md s c).map chainFields := by
  unfold remove_from_bin
  cases hm : md s d with
  | none => rfl
  | some m =>
    cases hbn : m.bin_next with
    | none =>
      cases hbp : m.bin_prev with
      | none =>
        dsimp only
        rw [hbn, hbp]
        dsimp only
        exact (md_updMd_chainFields _ _ _ (by intro x; rfl) c).trans rfl
      | some pr =>
        dsimp only
        rw [hbn, hbp]
        dsimp only
        exact (md_updMd_chainFields _ _ _ (by intro x; rfl) c).trans
          (md_updMd_chainFields _ _ _ (by intro x; rfl) c)
    | some nx =>
      cases hbp : m.bin_prev with
      | none =>
        dsimp only
        rw [hbn, hbp]
        dsimp only
        exact (md_updMd_chainFields _ _ _ (by intro x; rfl) c).trans
          ((md_updMd_chainFields _ _ _ (by intro x; rfl) c).trans rfl)
      | some pr =>
        dsimp only
        rw [hbn, hbp]
        dsimp only
        exact (md_updMd_chainFields _ _ _ (by intro x; rfl) c).trans
          (md_updMd_chainFields _ _ _ (by intro x; rfl) c)

/-- The bucket-insertion loop never changes the chain view of a header other
than the inserted block. -/
theorem bin_insert_loop_chainFields (nb nbsize idx : Nat) :
    ∀ (fuel cur : Nat) (s : AllocState) (c : Nat), c ≠ nb →
      (md (bin_insert_loop nb nbsize idx fuel cur s) c).map chainFields
        = (md s c).map chainFields := by
  intro fuel
  induction fuel with
  | zero => intro cur s c _; rfl
  | succ k ih =>
    intro cur s c hc
    unfold bin_insert_loop
    cases hm : md s cur with
    | none => rfl
    | some m =>
      dsimp only
      by_cases hsz : nbsize ≤ m.size
      · rw [if_pos hsz]
        cases hbp : m.bin_prev with
        | none =>
          dsimp only
          exact (md_updMd_chainFields _ _ _ (by intro x; rfl) c).trans
            (md_updMd_chainFields _ _ _ (by intro x; rfl) c)
        | some pr =>
          dsimp only
          exact (md_updMd_chainFields _ _ _ (by intro x; rfl) c).trans
            ((md_updMd_chainFields _ _ _ (by intro x; rfl) c).trans
              (md_updMd_chainFields _ _ _ (by intro x; rfl) c))
      · rw [if_neg hsz]
        cases hbn : m.bin_next with
        | some nxt =>
          dsimp only
          exact ih nxt s c hc
        | none =>
          dsimp only
          rw [md_updMd, if_neg hc]
          exact (md_updMd_chainFields _ _ _ (by intro x; rfl) c).trans
            (md_updMd_chainFields _ _ _ (by intro x; rfl) c)

/-- The bucket-insertion loop preserves the chain view of the inserted block
as well, provided its free flag is already set (the append branch re-sets
it to `true`). -/
theorem bin_insert_loop_chainFields_nb (nb nbsize idx : Nat) :
    ∀ (fuel cur : Nat) (s : AllocState),
      (md s nb).map MallocMetadata.is_free = some true →
      (md (bin_insert_loop nb nbsize idx fuel cur s) nb).map chainFields
        = (md s nb).map chainFields := by
  intro fuel
  induction fuel with
  | zero => intro cur s _; rfl
  | succ k ih =>
    intro cur s hfree
    unfold bin_insert_loop
    cases hm : md s cur with
    | none => rfl
    | some m =>
      dsimp only
      by_cases hsz : nbsize ≤ m.size
      · rw [if_pos hsz]
        cases hbp : m.bin_prev with
        | none =>
          dsimp only
          exact (md_updMd_chainFields _ _ _ (by intro x; rfl) nb).trans
            (md_updMd_chainFields _ _ _ (by intro x; rfl) nb)
        | some pr =>
          dsimp only
          exact (md_updMd_chainFields _ _ _ (by intro x; rfl) nb).trans
            ((md_updMd_chainFields _ _ _ (by intro x; rfl) nb).trans
              (md_updMd_chainFields _ _ _ (by intro x; rfl) nb))
      · rw [if_neg hsz]
        cases hbn : m.bin_next with
        | some nxt =>
          dsimp only
          exact ih nxt s hfree
        | none =>
          dsimp only
          cases hnb : md s nb with
          | none => simp [hnb] at hfree
          | some m0 =>
            have hm0free : m0.is_free = true := by
              simpa [hnb] using hfree
            have hmid : (md (updMd (updMd s nb fun x =>
                  { x with bin_next := none, bin_prev := some cur }) cur fun x =>
                  { x with bin_next := some nb }) nb).map chainFields
                = (md s nb).map chainFields :=
              (md_updMd_chainFields _ _ _ (by intro x; rfl) nb).trans
                (md_updMd_chainFields _ _ _ (by intro x; rfl) nb)
            rw [md_updMd, if_pos rfl]
            cases hmid2 : md (updMd (updMd s nb fun x =>
                { x with bin_next := none, bin_prev := some cur }) cur fun x =>
                { x with bin_next := some nb }) nb with
            | none =>
              rw [hmid2] at hmid
              simp [hnb] at hmid
            | some x =>
              rw [hmid2] at hmid
              rw [hnb] at hmid
              have hcf : chainFields x = chainFields m0 := by
                simpa using hmid
              have hxfree : x.is_free = m0.is_free :=
                congrArg (fun p => p.2.1) hcf
              show some (chainFields { x with is_free := true })
                  = some (chainFields m0)
              have hstep : chainFields { x with is_free := true } = chainFields x := by
                unfold chainFields
                rw [hxfree, hm0free]
              rw [hstep, hcf]

/-- Walking from `some a` always ends at some address. -/
theorem lastCont_some_isSome :
    ∀ (L : List Nat) (a : Nat), ∃ x, lastCont (some a) L = some x := by
  intro L
  induction L with
  | nil => intro a; exact ⟨a, rfl⟩
  | cons b t ih => intro a; simpa [lastCont] using ih b

/-- A walk ending at a concrete address either never moved or ends at the
list's last element. -/
theorem lastCont_some_split :
    ∀ (L : List Nat) (st : Option Nat) (pr : Nat), lastCont st L = some pr →
      (L = [] ∧ st = some pr) ∨ ∃ L', L = L' ++ [pr] := by
  intro L
  induction L with
  | nil => intro st pr h; exact Or.inl ⟨rfl, h⟩
  | cons a t ih =>
    intro st pr h
    rcases ih (some a) pr h with ⟨ht, ha⟩ | ⟨t', ht⟩
    · subst ht
      refine Or.inr ⟨[], ?_⟩
      simpa using Option.some.inj ha ▸ rfl
    · exact Or.inr ⟨a :: t', by rw [ht]; rfl⟩

/-- Splitting a forward bucket segment around an append. -/
theorem binSegB_append (s : AllocState) :
    ∀ (L1 L2 : List Nat) (o o2 : Option Nat),
      binSegB s o (L1 ++ L2) o2 = true ↔
        ∃ mid, binSegB s o L1 mid = true ∧ binSegB s mid L2 o2 = true := by
  intro L1
  induction L1 with
  | nil =>
    intro L2 o o2
    constructor
    · intro h
      exact ⟨o, by simp [binSegB], h⟩
    · rintro ⟨mid, h1, h2⟩
      have : o = mid := by simpa [binSegB] using h1
      rwa [this]
  | cons a t ih =>
    intro L2 o o2
    simp only [List.cons_append, binSegB, Bool.and_eq_true, beq_iff_eq]
    cases hma : md s a with
    | none => simp
    | some ma =>
      constructor
      · rintro ⟨ho, hrest⟩
        rcases (ih L2 ma.bin_next o2).mp hrest with ⟨mid, ht, h2⟩
        exact ⟨mid, ⟨ho, ht⟩, h2⟩
      · rintro ⟨mid, ⟨ho, ht⟩, h2⟩
        exact ⟨ho, (ih L2 ma.bin_next o2).mpr ⟨mid, ht, h2⟩⟩

/-- A forward bucket segment survives any state change that keeps each listed
header present with the same `bin_next`. -/
theorem binSegB_frame (s s2 : AllocState) :
    ∀ (L : List Nat) (o o2 : Option Nat),
      (∀ a ∈ L, ∀ ma, md s a = some ma →
        ∃ ma2, md s2 a = some ma2 ∧ ma2.bin_next = ma.bin_next) →
      binSegB s o L o2 = true → binSegB s2 o L o2 = true := by
  intro L
  induction L with
  | nil => intro o o2 _ h; exact h
  | cons a t ih =>
    intro o o2 hf h
    simp only [binSegB, Bool.and_eq_true, beq_iff_eq] at h ⊢
    obtain ⟨ho, hrest⟩ := h
    cases hma : md s a with
    | none =>
      rw [hma] at hrest
      simp at hrest
    | some ma =>
      rw [hma] at hrest
      dsimp only at hrest
      obtain ⟨ma2, hma2, hbn⟩ := hf a (by simp) ma hma
      rw [hma2]
      dsimp only
      rw [hbn]
      exact ⟨ho, ih _ _ (fun x hx mx hmx => hf x (by simp [hx]) mx hmx) hrest⟩

/-- The element before `cur` in a back-linked bucket segment is the last of
the prefix (or the segment's entry pointer). -/
theorem binBackB_last (s : AllocState) :
    ∀ (pre : List Nat) (st : Option Nat) (cur : Nat) (suf : List Nat),
      binBackB s st (pre ++ cur :: suf) = true →
      ∃ mc, md s cur = some mc ∧ mc.bin_prev = lastCont st pre := by
  intro pre
  induction pre with
  | nil =>
    intro st cur suf h
    simp only [List.nil_append, binBackB, Bool.and_eq_true] at h
    obtain ⟨h1, _⟩ := h
    cases hmc : md s cur with
    | none =>
      rw [hmc] at h1
      simp at h1
    | some mc =>
      rw [hmc] at h1
      dsimp only at h1
      refine ⟨mc, rfl, ?_⟩
      simp only [lastCont]
      exact beq_iff_eq.mp h1
  | cons a t ih =>
    intro st cur suf h
    simp only [List.cons_append, binBackB, Bool.and_eq_true] at h
    exact ih (some a) cur suf h.2

/-- The inserted block always appears in the abstract insertion result. -/
theorem mem_binInsertAbs (s : AllocState) (nb nbsize : Nat) :
    ∀ L, nb ∈ binInsertAbs s nb nbsize L := by
  intro L
  induction L with
  | nil => simp [binInsertAbs]
  | cons a t ih =>
    simp only [binInsertAbs]
    cases md s a with
    | none => simp
    | some m =>
      by_cases h : nbsize ≤ m.size
      · simp [h]
      · simp [h, ih]

/-- Build one step of a forward bucket segment. -/
theorem binSegB_cons_intro (s : AllocState) (a : Nat) (ma : MallocMetadata)
    (L : List Nat) (o2 : Option Nat)
    (hma : md s a = some ma)
    (hrest : binSegB s ma.bin_next L o2 = true) :
    binSegB s (some a) (a :: L) o2 = true := by
  simp [binSegB, hma, hrest]

/-- Destruct one step of a forward bucket segment. -/
theorem binSegB_cons_elim (s : AllocState) (a : Nat) (L : List Nat)
    (o o2 : Option Nat) (h : binSegB s o (a :: L) o2 = true) :
    o = some a ∧ ∃ ma, md s a = some ma ∧ binSegB s ma.bin_next L o2 = true := by
  simp only [binSegB, Bool.and_eq_true, beq_iff_eq] at h
  obtain ⟨ho, hrest⟩ := h
  cases hma : md s a with
  | none =>
    rw [hma] at hrest
    simp at hrest
  | some ma =>
    rw [hma] at hrest
    exact ⟨ho, ma, rfl, hrest⟩

/-- The empty forward segment. -/
theorem binSegB_nil_intro (s : AllocState) (o : Option Nat) :
    binSegB s o [] o = true := by
  simp [binSegB]

/-- An empty forward segment equates its endpoints. -/
theorem binSegB_nil_elim (s : AllocState) (o o2 : Option Nat)
    (h : binSegB s o [] o2 = true) : o = o2 := by
  simpa [binSegB] using h

/-- Reading some other header through a field update. -/
theorem md_updMd_ne (s : AllocState) (a : Nat) (f : MallocMetadata → MallocMetadata)
    (c : Nat) (hc : c ≠ a) : md (updMd s a f) c = md s c := by
  rw [md_updMd, if_neg hc]

/-- Reading the updated header through a field update. -/
theorem md_updMd_same (s : AllocState) (a : Nat)
    (f : MallocMetadata → MallocMetadata) :
    md (updMd s a f) a = (md s a).map f := by
  rw [md_updMd, if_pos rfl]

/-- The insert-before branch of the bucket-insertion loop: when the current
node's size already satisfies the new block, the bucket afterwards lists the
prefix, then the new block, then the current node and the rest. -/
theorem bin_insert_before_spec (nb nbsize idx : Nat) (pre : List Nat)
    (cur : Nat) (suf : List Nat) (fuel : Nat) (s : AllocState)
    (nbm mc : MallocMetadata)
    (hnb : md s nb = some nbm)
    (hmc : md s cur = some mc)
    (hsz : nbsize ≤ mc.size)
    (hseg1 : binSegB s (binGet s idx) pre (some cur) = true)
    (hseg2 : binSegB s (some cur) (cur :: suf) none = true)
    (hback : binBackB s none (pre ++ cur :: suf) = true)
    (hnodup : (pre ++ cur :: suf).Nodup)
    (hnotin : nb ∉ pre ++ cur :: suf) :
    binSegB (bin_insert_loop nb nbsize idx (fuel + 1) cur s)
      (binGet (bin_insert_loop nb nbsize idx (fuel + 1) cur s) idx)
      (pre ++ nb :: cur :: suf) none = true := by
  have hnbcur : nb ≠ cur := by
    intro h
    exact hnotin (by simp [h])
  have hcs_nodup : (cur :: suf).Nodup := (List.nodup_append.mp hnodup).2.1
  have hcur_nin_suf : cur ∉ suf := (List.nodup_cons.mp hcs_nodup).1
  have hnb_nin_suf : nb ∉ suf := fun h => hnotin (by simp [h])
  have hnb_nin_pre : nb ∉ pre := fun h => hnotin (by simp [h])
  have hdisj : List.Disjoint pre (cur :: suf) := (List.nodup_append.mp hnodup).2.2
  obtain ⟨mc2, hmc2, hbp_last⟩ := binBackB_last s pre none cur suf hback
  rw [hmc] at hmc2
  have hmc2' : mc = mc2 := Option.some.inj hmc2
  rw [← hmc2'] at hbp_last
  obtain ⟨-, mcx, hmcx2, hsuf⟩ := binSegB_cons_elim s cur suf (some cur) none hseg2
  rw [hmc] at hmcx2
  rw [← Option.some.inj hmcx2] at hsuf
  simp only [bin_insert_loop]
  rw [hmc]
  dsimp only
  rw [if_pos hsz]
  cases hbp : mc.bin_prev with
  | none =>
    have hpre : pre = [] := by
      cases hpre0 : pre with
      | nil => rfl
      | cons a t =>
        rw [hpre0] at hbp_last
        obtain ⟨x, hx⟩ := lastCont_some_isSome t a
        rw [hbp] at hbp_last
        simp [lastCont, hx] at hbp_last
    subst hpre
    have hhead : binGet s idx = some cur := binSegB_nil_elim _ _ _ hseg1
    dsimp only
    rw [List.nil_append]
    have hbg : binGet (binSet (updMd (updMd s cur fun x =>
        { x with bin_prev := some nb }) nb fun x =>
        { x with bin_next := some cur, bin_prev := none }) idx (some nb)) idx
        = some nb := by
      rw [binGet_binSet, if_pos rfl]
    rw [hbg]
    have hmdnb : md (binSet (updMd (updMd s cur fun x =>
        { x with bin_prev := some nb }) nb fun x =>
        { x with bin_next := some cur, bin_prev := none }) idx (some nb)) nb
        = some { nbm with bin_next := some cur, bin_prev := none } := by
      rw [md_binSet, md_updMd_same, md_updMd_ne _ _ _ _ hnbcur, hnb]
      rfl
    refine binSegB_cons_intro _ _ _ _ _ hmdnb ?_
    show binSegB _ (some cur) (cur :: suf) none = true
    refine binSegB_frame s _ (cur :: suf) (some cur) none ?_ hseg2
    intro a ha ma hma
    by_cases hac : a = cur
    · subst hac
      rw [hma] at hmc
      refine ⟨{ ma with bin_prev := some nb }, ?_, rfl⟩
      rw [md_binSet, md_updMd_ne _ _ _ _ (fun h => hnbcur h.symm), md_updMd_same,
        hma]
      rfl
    · have hanb : a ≠ nb := by
        rcases List.mem_cons.mp ha with h1 | h2
        · exact absurd h1 hac
        · intro hh
          exact hnb_nin_suf (hh ▸ h2)
      refine ⟨ma, ?_, rfl⟩
      rw [md_binSet, md_updMd_ne _ _ _ _ hanb, md_updMd_ne _ _ _ _ hac, hma]
  | some pr =>
    have hlast : lastCont none pre = some pr := by
      rw [← hbp_last, hbp]
    rcases lastCont_some_split pre none pr hlast with ⟨_, habs⟩ | ⟨pre2, hpre⟩
    · cases habs
    subst hpre
    have hpr_in_pre : pr ∈ pre2 ++ [pr] := by simp
    have hprcur : pr ≠ cur := by
      intro h
      exact hdisj hpr_in_pre (by simp [h])
    have hprnb : pr ≠ nb := by
      intro h
      exact hnb_nin_pre (h ▸ hpr_in_pre)
    have hpr_nin_suf : pr ∉ suf := fun h => hdisj hpr_in_pre (by simp [h])
    have hpre2_nodup : (pre2 ++ [pr]).Nodup := (List.nodup_append.mp hnodup).1
    have hpr_nin_pre2 : pr ∉ pre2 := by
      have := List.nodup_append.mp hpre2_nodup
      intro h
      exact this.2.2 h (by simp)
    obtain ⟨mid, hseg_pre2, hseg_pr⟩ := (binSegB_append s pre2 [pr] _ _).mp hseg1
    obtain ⟨hmid, hmp⟩ := binSegB_cons_elim s pr [] mid (some cur) hseg_pr
    obtain ⟨mp, hmp2, hmp3⟩ := hmp
    have hmp_next : mp.bin_next = some cur := binSegB_nil_elim _ _ _ hmp3
    subst hmid
    dsimp only
    have hbg : binGet (updMd (updMd (updMd s pr fun x =>
        { x with bin_next := some nb }) nb fun x =>
        { x with bin_prev := some pr, bin_next := some cur }) cur fun x =>
        { x with bin_prev := some nb }) idx = binGet s idx := by
      rw [binGet_updMd, binGet_updMd, binGet_updMd]
    rw [hbg]
    have hassoc : (pre2 ++ [pr]) ++ nb :: cur :: suf
        = pre2 ++ pr :: nb :: cur :: suf := by
      simp
    rw [hassoc]
    refine (binSegB_append _ pre2 (pr :: nb :: cur :: suf) _ _).mpr
      ⟨some pr, ?_, ?_⟩
    · refine binSegB_frame s _ pre2 _ _ ?_ hseg_pre2
      intro a ha ma hma
      have hapr : a ≠ pr := fun h => hpr_nin_pre2 (h ▸ ha)
      have hanb : a ≠ nb := fun h => hnb_nin_pre (h ▸ (by simp [ha] : a ∈ pre2 ++ [pr]))
      have hacur : a ≠ cur := fun h =>
        hdisj (by simp [ha] : a ∈ pre2 ++ [pr]) (by simp [h])
      refine ⟨ma, ?_, rfl⟩
      rw [md_updMd_ne _ _ _ _ hacur, md_updMd_ne _ _ _ _ hanb,
        md_updMd_ne _ _ _ _ hapr, hma]
    · have hmdpr : md (updMd (updMd (updMd s pr fun x =>
          { x with bin_next := some nb }) nb fun x =>
          { x with bin_prev := some pr, bin_next := some cur }) cur fun x =>
          { x with bin_prev := some nb }) pr
          = some { mp with bin_next := some nb } := by
        rw [md_updMd_ne _ _ _ _ hprcur, md_updMd_ne _ _ _ _ hprnb,
          md_updMd_same, hmp2]
        rfl
      refine binSegB_cons_intro _ _ _ _ _ hmdpr ?_
      show binSegB _ (some nb) (nb :: cur :: suf) none = true
      have hmdnb : md (updMd (updMd (updMd s pr fun x =>
          { x with bin_next := some nb }) nb fun x =>
          { x with bin_prev := some pr, bin_next := some cur }) cur fun x =>
          { x with bin_prev := some nb }) nb
          = some { nbm with bin_prev := some pr, bin_next := some cur } := by
        rw [md_updMd_ne _ _ _ _ hnbcur, md_updMd_same,
          md_updMd_ne _ _ _ _ (fun h => hprnb h.symm), hnb]
        rfl
      refine binSegB_cons_intro _ _ _ _ _ hmdnb ?_
      show binSegB _ (some cur) (cur :: suf) none = true
      have hmdcur : md (updMd (updMd (updMd s pr fun x =>
          { x with bin_next := some nb }) nb fun x =>
          { x with bin_prev := some pr, bin_next := some cur }) cur fun x =>
          { x with bin_prev := some nb }) cur
          = some { mc with bin_prev := some nb } := by
        rw [md_updMd_same, md_updMd_ne _ _ _ _ (fun h => hnbcur h.symm),
          md_updMd_ne _ _ _ _ (fun h => hprcur h.symm), hmc]
        rfl
      refine binSegB_cons_intro _ _ _ _ _ hmdcur ?_
      show binSegB _ mc.bin_next suf none = true
      refine binSegB_frame s _ suf mc.bin_next none ?_ hsuf
      intro a ha ma hma
      have hacur : a ≠ cur := fun h => hcur_nin_suf (h ▸ ha)
      have hanb : a ≠ nb := fun h => hnb_nin_suf (h ▸ ha)
      have hapr : a ≠ pr := fun h => hpr_nin_suf (h ▸ ha)
      refine ⟨ma, ?_, rfl⟩
      rw [md_updMd_ne _ _ _ _ hacur, md_updMd_ne _ _ _ _ hanb,
        md_updMd_ne _ _ _ _ hapr, hma]

/-- The append branch of the bucket-insertion loop: at the bucket's last
node, whose size is still too small, the new block is linked in after it. -/
theorem bin_insert_append_spec (nb nbsize idx : Nat) (pre : List Nat)
    (cur fuel : Nat) (s : AllocState) (nbm mc : MallocMetadata)
    (hnb : md s nb = some nbm)
    (hmc : md s cur = some mc)
    (hsz : ¬ nbsize ≤ mc.size)
    (hbnx : mc.bin_next = none)
    (hseg1 : binSegB s (binGet s idx) pre (some cur) = true)
    (hnodup : (pre ++ [cur]).Nodup)
    (hnotin : nb ∉ pre ++ [cur]) :
    binSegB (bin_insert_loop nb nbsize idx (fuel + 1) cur s)
      (binGet (bin_insert_loop nb nbsize idx (fuel + 1) cur s) idx)
      (pre ++ [cur, nb]) none = true := by
  have hnbcur : nb ≠ cur := by
    intro h
    exact hnotin (by simp [h])
  have hnb_nin_pre : nb ∉ pre := fun h => hnotin (by simp [h])
  have hdisj : List.Disjoint pre [cur] := (List.nodup_append.mp hnodup).2.2
  have hcur_nin_pre : cur ∉ pre := fun h => hdisj h (by simp)
  simp only [bin_insert_loop]
  rw [hmc]
  dsimp only
  rw [if_neg hsz, hbnx]
  dsimp only
  have hbg : binGet (updMd (updMd (updMd s nb fun x =>
      { x with bin_next := none, bin_prev := some cur }) cur fun x =>
      { x with bin_next := some nb }) nb fun x =>
      { x with is_free := true }) idx = binGet s idx := by
    rw [binGet_updMd, binGet_updMd, binGet_updMd]
  rw [hbg]
  refine (binSegB_append _ pre [cur, nb] _ _).mpr ⟨some cur, ?_, ?_⟩
  · refine binSegB_frame s _ pre _ _ ?_ hseg1
    intro a ha ma hma
    have hanb : a ≠ nb := fun h => hnb_nin_pre (h ▸ ha)
    have hacur : a ≠ cur := fun h => hcur_nin_pre (h ▸ ha)
    refine ⟨ma, ?_, rfl⟩
    rw [md_updMd_ne _ _ _ _ hanb, md_updMd_ne _ _ _ _ hacur,
      md_updMd_ne _ _ _ _ hanb, hma]
  · have hmdcur : md (updMd (updMd (updMd s nb fun x =>
        { x with bin_next := none, bin_prev := some cur }) cur fun x =>
        { x with bin_next := some nb }) nb fun x =>
        { x with is_free := true }) cur
        = some { mc with bin_next := some nb } := by
      rw [md_updMd_ne _ _ _ _ (fun h => hnbcur h.symm), md_updMd_same,
        md_updMd_ne _ _ _ _ (fun h => hnbcur h.symm), hmc]
      rfl
    refine binSegB_cons_intro _ _ _ _ _ hmdcur ?_
    show binSegB _ (some nb) [nb] none = true
    have hmdnb : md (updMd (updMd (updMd s nb fun x =>
        { x with bin_next := none, bin_prev := some cur }) cur fun x =>
        { x with bin_next := some nb }) nb fun x =>
        { x with is_free := true }) nb
        = some { nbm with is_free := true, bin_next := none, bin_prev := some cur } := by
      rw [md_updMd_same, md_updMd_ne _ _ _ _ hnbcur, md_updMd_same, hnb]
      rfl
    refine binSegB_cons_intro _ _ _ _ _ hmdnb ?_
    exact binSegB_nil_intro _ _

/-- Full functional spec of the bucket-insertion loop: starting at `cur`
after having walked the prefix `pre`, the bucket afterwards lists `pre`
followed by the sorted insertion of `nb` into `cur :: suf`. -/
theorem bin_insert_loop_spec (nb nbsize idx : Nat) :
    ∀ (suf pre : List Nat) (cur fuel : Nat) (s : AllocState)
      (nbm : MallocMetadata),
      md s nb = some nbm →
      binSegB s (binGet s idx) pre (some cur) = true →
      binSegB s (some cur) (cur :: suf) none = true →
      binBackB s none (pre ++ cur :: suf) = true →
      (pre ++ cur :: suf).Nodup →
      nb ∉ pre ++ cur :: suf →
      suf.length + 1 ≤ fuel →
      binSegB (bin_insert_loop nb nbsize idx fuel cur s)
        (binGet (bin_insert_loop nb nbsize idx fuel cur s) idx)
        (pre ++ binInsertAbs s nb nbsize (cur :: suf)) none = true := by
  intro suf
  induction suf with
  | nil =>
    intro pre cur fuel s nbm hnb hseg1 hseg2 hback hnodup hnotin hfuel
    obtain ⟨fuel0, rfl⟩ : ∃ f, fuel = f + 1 := ⟨fuel - 1, by omega⟩
    obtain ⟨-, mc, hmc, hrest⟩ := binSegB_cons_elim s cur [] (some cur) none hseg2
    have hbnx : mc.bin_next = none := binSegB_nil_elim _ _ _ hrest
    by_cases hsz : nbsize ≤ mc.size
    · have habs : binInsertAbs s nb nbsize [cur] = [nb, cur] := by
        simp [binInsertAbs, hmc, hsz]
      rw [habs]
      exact bin_insert_before_spec nb nbsize idx pre cur [] fuel0 s nbm mc
        hnb hmc hsz hseg1 hseg2 hback hnodup hnotin
    · have habs : binInsertAbs s nb nbsize [cur] = [cur, nb] := by
        simp [binInsertAbs, hmc, hsz]
      rw [habs]
      exact bin_insert_append_spec nb nbsize idx pre cur fuel0 s nbm mc
        hnb hmc hsz hbnx hseg1 hnodup hnotin
  | cons nxt suf2 ih =>
    intro pre cur fuel s nbm hnb hseg1 hseg2 hback hnodup hnotin hfuel
    obtain ⟨fuel0, rfl⟩ : ∃ f, fuel = f + 1 := ⟨fuel - 1, by omega⟩
    obtain ⟨-, mc, hmc, hrest⟩ :=
      binSegB_cons_elim s cur (nxt :: suf2) (some cur) none hseg2
    obtain ⟨hbn_eq, -⟩ := binSegB_cons_elim s nxt suf2 mc.bin_next none hrest
    by_cases hsz : nbsize ≤ mc.size
    · have habs : binInsertAbs s nb nbsize (cur :: nxt :: suf2)
          = nb :: cur :: nxt :: suf2 := by
        simp [binInsertAbs, hmc, hsz]
      rw [habs]
      exact bin_insert_before_spec nb nbsize idx pre cur (nxt :: suf2) fuel0 s
        nbm mc hnb hmc hsz hseg1 hseg2 hback hnodup hnotin
    · have habs : binInsertAbs s nb nbsize (cur :: nxt :: suf2)
          = cur :: binInsertAbs s nb nbsize (nxt :: suf2) := by
        simp [binInsertAbs, hmc, hsz]
      rw [habs]
      simp only [bin_insert_loop]
      rw [hmc]
      dsimp only
      rw [if_neg hsz, hbn_eq]
      dsimp only
      have hseg1' : binSegB s (binGet s idx) (pre ++ [cur]) (some nxt) = true := by
        refine (binSegB_append s pre [cur] _ _).mpr ⟨some cur, hseg1, ?_⟩
        refine binSegB_cons_intro _ _ _ _ _ hmc ?_
        rw [hbn_eq]
        exact binSegB_nil_intro _ _
      have hseg2' : binSegB s (some nxt) (nxt :: suf2) none = true := by
        rw [hbn_eq] at hrest
        exact hrest
      have hre : (pre ++ [cur]) ++ nxt :: suf2 = pre ++ cur :: nxt :: suf2 := by
        simp
      have hback' : binBackB s none ((pre ++ [cur]) ++ nxt :: suf2) = true := by
        rw [hre]
        exact hback
      have hnodup' : ((pre ++ [cur]) ++ nxt :: suf2).Nodup := by
        rw [hre]
        exact hnodup
      have hnotin' : nb ∉ (pre ++ [cur]) ++ nxt :: suf2 := by
        rw [hre]
        exact hnotin
      have hfuel' : suf2.length + 1 ≤ fuel0 := by
        simp only [List.length_cons] at hfuel
        omega
      have hmain := ih (pre ++ [cur]) nxt fuel0 s nbm hnb hseg1' hseg2' hback'
        hnodup' hnotin' hfuel'
      have hsh : (pre ++ [cur]) ++ binInsertAbs s nb nbsize (nxt :: suf2)
          = pre ++ cur :: binInsertAbs s nb nbsize (nxt :: suf2) := by
        simp
      rw [hsh] at hmain
      exact hmain

/-- Functional spec of `insert_block_to_bin`: under a well-formed bucket for
the block's size class, the bucket afterwards is the sorted insertion of the
block (in particular, the block is linked in its bucket). -/
theorem insert_block_to_bin_spec (nb fuel : Nat) (s : AllocState)
    (nbm : MallocMetadata) (L : List Nat)
    (hnb : md s nb = some nbm)
    (hseg : binSegB s (binGet s (GET_BIN_ENTRY nbm.size)) L none = true)
    (hback : binBackB s none L = true)
    (hnodup : L.Nodup)
    (hnotin : nb ∉ L)
    (hfuel : L.length + 1 ≤ fuel) :
    binSegB (insert_block_to_bin nb fuel s)
      (binGet (insert_block_to_bin nb fuel s) (GET_BIN_ENTRY nbm.size))
      (binInsertAbs s nb nbm.size L) none = true ∧
    nb ∈ binInsertAbs s nb nbm.size L := by
  refine ⟨?_, mem_binInsertAbs s nb nbm.size L⟩
  unfold insert_block_to_bin
  rw [hnb]
  dsimp only
  cases hhead : binGet s (GET_BIN_ENTRY nbm.size) with
  | none =>
    have hL : L = [] := by
      cases L with
      | nil => rfl
      | cons a t =>
        obtain ⟨ho, -⟩ := binSegB_cons_elim s a t _ none hseg
        rw [hhead] at ho
        cases ho
    subst hL
    dsimp only
    have hbg : binGet (binSet (updMd s nb fun x =>
        { x with bin_prev := none, bin_next := none })
        (GET_BIN_ENTRY nbm.size) (some nb)) (GET_BIN_ENTRY nbm.size)
        = some nb := by
      rw [binGet_binSet, if_pos rfl]
    rw [hbg]
    show binSegB _ (some nb) [nb] none = true
    have hmdnb : md (binSet (updMd s nb fun x =>
        { x with bin_prev := none, bin_next := none })
        (GET_BIN_ENTRY nbm.size) (some nb)) nb
        = some { nbm with bin_prev := none, bin_next := none } := by
      rw [md_binSet, md_updMd_same, hnb]
      rfl
    refine binSegB_cons_intro _ _ _ _ _ hmdnb ?_
    exact binSegB_nil_intro _ _
  | some head =>
    cases L with
    | nil =>
      have h0 := binSegB_nil_elim _ _ _ hseg
      rw [hhead] at h0
      cases h0
    | cons a rest =>
      obtain ⟨ho, ma, hma, hrest⟩ := binSegB_cons_elim s a rest _ none hseg
      rw [hhead] at ho
      have ha : head = a := Option.some.inj ho
      subst ha
      have hseg0 : binSegB s (binGet s (GET_BIN_ENTRY nbm.size)) []
          (some head) = true := by
        simp [binSegB, hhead]
      have hseg2 : binSegB s (some head) (head :: rest) none = true :=
        binSegB_cons_intro _ _ _ _ _ hma hrest
      have hfuel2 : rest.length + 1 ≤ fuel := by
        simp only [List.length_cons] at hfuel
        omega
      have hmain := bin_insert_loop_spec nb nbm.size (GET_BIN_ENTRY nbm.size)
        rest [] head fuel s nbm hnb hseg0 hseg2 (by simpa using hback)
        (by simpa using hnodup) (by simpa using hnotin) hfuel2
      simpa using hmain

/-- Everything in the abstract insertion result is the new block or was
already listed. -/
theorem mem_of_mem_binInsertAbs (s : AllocState) (nb nbsize : Nat) :
    ∀ (L : List Nat) (a : Nat), a ∈ binInsertAbs s nb nbsize L →
      a = nb ∨ a ∈ L := by
  intro L
  induction L with
  | nil =>
    intro a ha
    simp [binInsertAbs] at ha
    exact Or.inl ha
  | cons c t ih =>
    intro a ha
    simp only [binInsertAbs] at ha
    cases hmc : md s c with
    | none =>
      rw [hmc] at ha
      simp at ha
      exact Or.inl ha
    | some mc =>
      rw [hmc] at ha
      dsimp only at ha
      by_cases hsz : nbsize ≤ mc.size
      · rw [if_pos hsz] at ha
        rcases List.mem_cons.mp ha with h | h
        · exact Or.inl h
        · exact Or.inr h
      · rw [if_neg hsz] at ha
        rcases List.mem_cons.mp ha with h | h
        · exact Or.inr (by simp [h])
        · rcases ih a h with h2 | h2
          · exact Or.inl h2
          · exact Or.inr (by simp [h2])

/-- The intermediate state of `cut_block` right before the remainder is
binned: the winner `b` has been unlinked from its bucket and the remainder
header has been written at `b + size + header`. -/
def cutMid (b sz : Nat) (m : MallocMetadata) (s : AllocState) : AllocState :=
  putMd (remove_from_bin b s) (b + sz + sizeof_malloc_metadata_t)
    { size := m.size - sz - sizeof_malloc_metadata_t, is_free := true,
      next := m.next, prev := some b, bin_next := none, bin_prev := none }

/-- The final state of `cut_block` expressed over `cutMid`: bin the
remainder, relink the former successor, shrink and clear the winner. -/
def cutFinal (b sz : Nat) (m : MallocMetadata) (fuel : Nat) (s : AllocState) :
    AllocState :=
  let n := b + sz + sizeof_malloc_metadata_t
  let s2 := insert_block_to_bin n fuel (cutMid b sz m s)
  let s3 :=
    match m.next with
    | none => s2
    | some nx => updMd s2 nx (fun x => { x with prev := some n })
  updMd s3 b (fun x =>
    { x with next := some n, is_free := false, size := sz, bin_next := none, bin_prev := none })

/-- `cut_block` with `remove_bin = true` computes `cutFinal` whenever the
winner's header survives the bucket unlink with its chain fields intact. -/
theorem cut_block_eq_cutFinal (s : AllocState) (b sz fuel : Nat)
    (m m0 : MallocMetadata)
    (hm0 : md (remove_from_bin b s) b = some m0)
    (hsz0 : m0.size = m.size) (hnx0 : m0.next = m.next) :
    cut_block b sz true fuel s = cutFinal b sz m fuel s := by
  unfold cut_block cutFinal cutMid
  rw [if_pos rfl]
  dsimp only
  rw [hm0]
  dsimp only
  rw [hsz0, hnx0]

/-- Size projection of the chain view. -/
theorem chainFields_size {a b : MallocMetadata} (h : chainFields a = chainFields b) :
    a.size = b.size := congrArg (fun p => p.1) h

/-- Free-flag projection of the chain view. -/
theorem chainFields_free {a b : MallocMetadata} (h : chainFields a = chainFields b) :
    a.is_free = b.is_free := congrArg (fun p => p.2.1) h

/-- Successor projection of the chain view. -/
theorem chainFields_next {a b : MallocMetadata} (h : chainFields a = chainFields b) :
    a.next = b.next := congrArg (fun p => p.2.2.1) h

/-- Predecessor projection of the chain view. -/
theorem chainFields_prev {a b : MallocMetadata} (h : chainFields a = chainFields b) :
    a.prev = b.prev := congrArg (fun p => p.2.2.2) h

/-- `insert_block_to_bin` never changes the chain view of another header. -/
theorem insert_block_to_bin_chainFields (nb fuel : Nat) (s : AllocState)
    (c : Nat) (hc : c ≠ nb) :
    (md (insert_block_to_bin nb fuel s) c).map chainFields
      = (md s c).map chainFields := by
  unfold insert_block_to_bin
  cases hm : md s nb with
  | none => dsimp only
  | some nm =>
    dsimp only
    cases hb : binGet s (GET_BIN_ENTRY nm.size) with
    | none =>
      dsimp only
      rw [md_binSet]
      exact md_updMd_chainFields _ _ _ (by intro x; rfl) c
    | some head =>
      dsimp only
      exact bin_insert_loop_chainFields nb nm.size _ fuel head s c hc

/-- `insert_block_to_bin` preserves the chain view of the inserted block
when its free flag is already set. -/
theorem insert_block_to_bin_chainFields_nb (nb fuel : Nat) (s : AllocState)
    (hfree : (md s nb).map MallocMetadata.is_free = some true) :
    (md (insert_block_to_bin nb fuel s) nb).map chainFields
      = (md s nb).map chainFields := by
  unfold insert_block_to_bin
  cases hm : md s nb with
  | none =>
    dsimp only
    rw [hm]
  | some nm =>
    dsimp only
    cases hb : binGet s (GET_BIN_ENTRY nm.size) with
    | none =>
      dsimp only
      rw [md_binSet]
      exact (md_updMd_chainFields _ _ _ (by intro x; rfl) nb).trans (by rw [hm])
    | some head =>
      dsimp only
      exact (bin_insert_loop_chainFields_nb nb nm.size _ fuel head s hfree).trans
        (by rw [hm])

/-- Extract the header from a chain-view equation. -/
theorem map_chainFields_elim {o : Option MallocMetadata} {y : MallocMetadata}
    (h : o.map chainFields = some (chainFields y)) :
    ∃ x, o = some x ∧ chainFields x = chainFields y := by
  cases o with
  | none => simp at h
  | some x => exact ⟨x, rfl, by simpa using h⟩

/-- A null chain view comes from a null header. -/
theorem map_chainFields_none {o : Option MallocMetadata}
    (h : o.map chainFields = none) : o = none := by
  cases o with
  | none => rfl
  | some x => simp at h

/-- The combined effect of `cut_block`'s final state: the winner is shrunk
in place to exactly the request, marked used and cleared of bin links; the
remainder carries exactly the leftover payload, sits between the winner and
its former successor, and is linked into the bucket of its own size. -/
theorem cutFinal_spec (s : AllocState) (b sz fuel : Nat)
    (m m0 : MallocMetadata) (L : List Nat)
    (hb : md s b = some m)
    (hm0 : md (remove_from_bin b s) b = some m0)
    (hcf0 : chainFields m0 = chainFields m)
    (hfresh : md s (b + sz + sizeof_malloc_metadata_t) = none)
    (hnx : ∀ nx, m.next = some nx →
      nx ≠ b ∧ nx ≠ b + sz + sizeof_malloc_metadata_t)
    (hseg : binSegB (cutMid b sz m s) (binGet (cutMid b sz m s)
      (GET_BIN_ENTRY (m.size - sz - sizeof_malloc_metadata_t))) L none = true)
    (hback : binBackB (cutMid b sz m s) none L = true)
    (hnodup : L.Nodup)
    (hnin : b + sz + sizeof_malloc_metadata_t ∉ L)
    (hbin : b ∉ L)
    (hfuel : L.length + 1 ≤ fuel) :
    md (cutFinal b sz m fuel s) b
        = some { size := sz, is_free := false,
                 next := some (b + sz + sizeof_malloc_metadata_t),
                 prev := m.prev, bin_next := none, bin_prev := none } ∧
    (md (cutFinal b sz m fuel s) (b + sz + sizeof_malloc_metadata_t)).map
        chainFields
        = some (m.size - sz - sizeof_malloc_metadata_t, true, m.next, some b) ∧
    (∀ nx, m.next = some nx →
      (md (cutFinal b sz m fuel s) nx).map chainFields
        = (md s nx).map (fun x => (x.size, x.is_free, x.next,
            some (b + sz + sizeof_malloc_metadata_t)))) ∧
    binSegB (cutFinal b sz m fuel s)
      (binGet (cutFinal b sz m fuel s)
        (GET_BIN_ENTRY (m.size - sz - sizeof_malloc_metadata_t)))
      (binInsertAbs (cutMid b sz m s) (b + sz + sizeof_malloc_metadata_t)
        (m.size - sz - sizeof_malloc_metadata_t) L) none = true ∧
    b + sz + sizeof_malloc_metadata_t ∈ binInsertAbs (cutMid b sz m s)
      (b + sz + sizeof_malloc_metadata_t)
      (m.size - sz - sizeof_malloc_metadata_t) L := by
  have hbn : b ≠ b + sz + sizeof_malloc_metadata_t := by
    intro h
    rw [← h] at hfresh
    rw [hb] at hfresh
    cases hfresh
  have hnb : b + sz + sizeof_malloc_metadata_t ≠ b := fun h => hbn h.symm
  have hmid_n : md (cutMid b sz m s) (b + sz + sizeof_malloc_metadata_t)
      = some { size := m.size - sz - sizeof_malloc_metadata_t, is_free := true,
               next := m.next, prev := some b, bin_next := none, bin_prev := none } := by
    unfold cutMid
    rw [md_putMd, if_pos rfl]
  have hmid_ne : ∀ c, c ≠ b + sz + sizeof_malloc_metadata_t →
      md (cutMid b sz m s) c = md (remove_from_bin b s) c := by
    intro c hc
    unfold cutMid
    rw [md_putMd, if_neg hc]
  have hmid_b : md (cutMid b sz m s) b = some m0 := by
    rw [hmid_ne b hbn, hm0]
  have hins := insert_block_to_bin_spec (b + sz + sizeof_malloc_metadata_t)
    fuel (cutMid b sz m s)
    { size := m.size - sz - sizeof_malloc_metadata_t, is_free := true,
      next := m.next, prev := some b, bin_next := none, bin_prev := none }
    L hmid_n hseg hback hnodup hnin hfuel
  have hs2_b : (md (insert_block_to_bin (b + sz + sizeof_malloc_metadata_t)
      fuel (cutMid b sz m s)) b).map chainFields = some (chainFields m) := by
    rw [insert_block_to_bin_chainFields _ _ _ b hbn, hmid_b]
    simp [hcf0]
  obtain ⟨x2, hx2, hx2cf⟩ := map_chainFields_elim hs2_b
  have hx2prev : x2.prev = m.prev := chainFields_prev hx2cf
  have hfree_n : (md (cutMid b sz m s) (b + sz + sizeof_malloc_metadata_t)).map
      MallocMetadata.is_free = some true := by
    rw [hmid_n]
    rfl
  have hs2_n : (md (insert_block_to_bin (b + sz + sizeof_malloc_metadata_t)
      fuel (cutMid b sz m s)) (b + sz + sizeof_malloc_metadata_t)).map chainFields
      = some (m.size - sz - sizeof_malloc_metadata_t, true, m.next, some b) := by
    rw [insert_block_to_bin_chainFields_nb _ _ _ hfree_n, hmid_n]
    rfl
  have hbL2 : b ∉ binInsertAbs (cutMid b sz m s)
      (b + sz + sizeof_malloc_metadata_t)
      (m.size - sz - sizeof_malloc_metadata_t) L := by
    intro hmem
    rcases mem_of_mem_binInsertAbs _ _ _ L b hmem with h | h
    · exact hbn h
    · exact hbin h
  unfold cutFinal
  dsimp only
  cases hmn : m.next with
  | none =>
    dsimp only
    refine ⟨?_, ?_, ?_, ?_, hins.2⟩
    · rw [md_updMd_same, hx2]
      simp only [Option.map_some']
      rw [show x2.prev = m.prev from hx2prev]
    · rw [md_updMd_ne _ _ _ _ hnb]
      rw [hmn] at hs2_n
      exact hs2_n
    · intro nx h
      cases h
    · rw [binGet_updMd]
      refine binSegB_frame _ _ _ _ _ ?_ hins.1
      intro a ha ma hma
      have hab : a ≠ b := fun h => hbL2 (h ▸ ha)
      refine ⟨ma, ?_, rfl⟩
      rw [md_updMd_ne _ _ _ _ hab, hma]
  | some nx =>
    obtain ⟨hnxb, hnxn⟩ := hnx nx hmn
    have hbnx : b ≠ nx := fun h => hnxb h.symm
    have hnnx : (b + sz + sizeof_malloc_metadata_t) ≠ nx := fun h => hnxn h.symm
    dsimp only
    refine ⟨?_, ?_, ?_, ?_, hins.2⟩
    · rw [md_updMd_same, md_updMd_ne _ _ _ _ hbnx, hx2]
      simp only [Option.map_some']
      rw [show x2.prev = m.prev from hx2prev]
    · rw [md_updMd_ne _ _ _ _ hnb, md_updMd_ne _ _ _ _ hnnx]
      rw [hmn] at hs2_n
      exact hs2_n
    · intro nx2 h
      obtain rfl : nx = nx2 := Option.some.inj h
      rw [md_updMd_ne _ _ _ _ hnxb, md_updMd_same]
      have hXnx : (md (insert_block_to_bin (b + sz + sizeof_malloc_metadata_t)
          fuel (cutMid b sz m s)) nx).map chainFields
          = (md s nx).map chainFields := by
        rw [insert_block_to_bin_chainFields _ _ _ nx hnxn,
          hmid_ne nx hnxn, remove_from_bin_chainFields]
      cases hsx : md s nx with
      | none =>
        rw [hsx] at hXnx
        simp only [Option.map_none'] at hXnx
        rw [map_chainFields_none hXnx]
        rfl
      | some xs =>
        rw [hsx] at hXnx
        obtain ⟨x3, hx3, hx3cf⟩ := map_chainFields_elim hXnx
        rw [hx3]
        show some (chainFields ({ x3 with prev := some (b + sz + sizeof_malloc_metadata_t) })) = some (xs.size, xs.is_free, xs.next, some (b + sz + sizeof_malloc_metadata_t))
        unfold chainFields
        rw [chainFields_size hx3cf, chainFields_free hx3cf,
          chainFields_next hx3cf]
    · rw [binGet_updMd, binGet_updMd]
      refine binSegB_frame _ _ _ _ _ ?_ hins.1
      intro a ha ma hma
      have hab : a ≠ b := fun h => hbL2 (h ▸ ha)
      by_cases hanx : a = nx
      · subst hanx
        refine ⟨{ ma with prev := some (b + sz + sizeof_malloc_metadata_t) }, ?_, rfl⟩
        rw [md_updMd_ne _ _ _ _ hab, md_updMd_same, hma]
        rfl
      · refine ⟨ma, ?_, rfl⟩
        rw [md_updMd_ne _ _ _ _ hab, md_updMd_ne _ _ _ _ hanx, hma]

/-- Claim C6: in allocate's bin path, when the chosen free block `b`
satisfies `IS_LARGE_ENOUGH` (source: `winner.size >= size + header + 128`),
`cut_block` shrinks the winner in place to exactly the requested size, marks
it used with cleared bin links, creates a new free block of exactly
`winner.size − size − header` payload bytes immediately after the winner —
linked into the address chain between the winner and its former successor —
and inserts it into the bin bucket of its new size; when the condition
fails, the block is handed over whole (unbinned, marked used) with its size
and chain links unchanged. -/
theorem c6_bin_split_exact :
    (∀ (s : AllocState) (b sz fuel : Nat) (m : MallocMetadata) (L : List Nat),
      md s b = some m →
      m.is_free = true →
      IS_LARGE_ENOUGH m.size sz →
      md s (b + sz + sizeof_malloc_metadata_t) = none →
      (∀ nx, m.next = some nx →
        nx ≠ b ∧ nx ≠ b + sz + sizeof_malloc_metadata_t) →
      binSegB (cutMid b sz m s) (binGet (cutMid b sz m s)
        (GET_BIN_ENTRY (m.size - sz - sizeof_malloc_metadata_t))) L none = true →
      binBackB (cutMid b sz m s) none L = true →
      L.Nodup →
      b + sz + sizeof_malloc_metadata_t ∉ L →
      b ∉ L →
      L.length + 1 ≤ fuel →
      md (cut_block b sz true fuel s) b
          = some { size := sz, is_free := false, next := some (b + sz + sizeof_malloc_metadata_t), prev := m.prev, bin_next := none, bin_prev := none } ∧
      (md (cut_block b sz true fuel s) (b + sz + sizeof_malloc_metadata_t)).map chainFields
          = some (m.size - sz - sizeof_malloc_metadata_t, true, m.next, some b) ∧
      (∀ nx, m.next = some nx →
        (md (cut_block b sz true fuel s) nx).map chainFields
          = (md s nx).map (fun x => (x.size, x.is_free, x.next, some (b + sz + sizeof_malloc_metadata_t)))) ∧
      binSegB (cut_block b sz true fuel s)
        (binGet (cut_block b sz true fuel s) (GET_BIN_ENTRY (m.size - sz - sizeof_malloc_metadata_t)))
        (binInsertAbs (cutMid b sz m s) (b + sz + sizeof_malloc_metadata_t) (m.size - sz - sizeof_malloc_metadata_t) L) none = true ∧
      b + sz + sizeof_malloc_metadata_t ∈ binInsertAbs (cutMid b sz m s) (b + sz + sizeof_malloc_metadata_t) (m.size - sz - sizeof_malloc_metadata_t) L) ∧
    (∀ (s : AllocState) (b : Nat) (m : MallocMetadata), md s b = some m →
      (md (updMd (remove_from_bin b s) b (fun x => { x with is_free := false })) b).map chainFields
        = some (m.size, false, m.next, m.prev)) := by
  constructor
  · intro s b sz fuel m L hb hfree hbig hfresh hnx hseg hback hnodup hnin hbL hfuel
    have hmm0 := remove_from_bin_chainFields b s b
    rw [hb] at hmm0
    obtain ⟨m0, hm0, hcf0⟩ := map_chainFields_elim hmm0
    rw [cut_block_eq_cutFinal s b sz fuel m m0 hm0 (chainFields_size hcf0)
      (chainFields_next hcf0)]
    exact cutFinal_spec s b sz fuel m m0 L hb hm0 hcf0 hfresh hnx hseg hback
      hnodup hnin hbL hfuel
  · intro s b m hb
    have hmm0 := remove_from_bin_chainFields b s b
    rw [hb] at hmm0
    obtain ⟨m0, hm0, hcf0⟩ := map_chainFields_elim hmm0
    rw [md_updMd_same, hm0]
    simp only [Option.map_some']
    show some (chainFields ({ m0 with is_free := false })) = _
    unfold chainFields
    rw [chainFields_size hcf0, chainFields_next hcf0, chainFields_prev hcf0]

/-- Witness state for C6: two physically adjacent free blocks, b = 2000
(1000 bytes) at the head of bucket 0 and c = 3048 (700 bytes) behind it. -/
def c6state : AllocState :=
  { mem := [(2000, { size := 1000, is_free := true, next := some 3048, prev := none, bin_next := some 3048, bin_prev := none }),
            (3048, { size := 700, is_free := true, next := none, prev := some 2000, bin_next := none, bin_prev := some 2000 })],
    metadata_head := some 2000, mmap_metadata_head := none,
    free_block_bin := [(0, some 2000)], data := [], brk := 3796,
    mmap_base := 1000000000, sbrk_fails := [], mmap_fails := [] }

/-- Witness for C6: cutting a 1000-byte free block at request 304 leaves a
304-byte used winner, a 648-byte free remainder linked between the winner
and its old successor and placed in its bucket, and the no-split handover
keeps the size. -/
theorem c6_bin_split_exact_witness :
    md (cut_block 2000 304 true 10 c6state) 2000
        = some { size := 304, is_free := false, next := some 2352, prev := none, bin_next := none, bin_prev := none } ∧
    (md (cut_block 2000 304 true 10 c6state) 2352).map chainFields
        = some (648, true, some 3048, some 2000) ∧
    2352 ∈ binInsertAbs (cutMid 2000 304 { size := 1000, is_free := true, next := some 3048, prev := none, bin_next := some 3048, bin_prev := none } c6state) 2352 648 [3048] ∧
    (md (updMd (remove_from_bin 2000 c6state) 2000
        (fun x => { x with is_free := false })) 2000).map chainFields
      = some (1000, false, some 3048, none) := by
  have h := c6_bin_split_exact.1 c6state 2000 304 10
    { size := 1000, is_free := true, next := some 3048, prev := none, bin_next := some 3048, bin_prev := none }
    [3048] rfl rfl (by decide) rfl
    (by
      intro nx hx
      cases hx
      exact ⟨by decide, by decide⟩)
    (by decide) (by decide) (by decide) (by decide) (by decide) (by decide)
  have h2 := c6_bin_split_exact.2 c6state 2000
    { size := 1000, is_free := true, next := some 3048, prev := none, bin_next := some 3048, bin_prev := none }
    rfl
  exact ⟨h.1, h.2.1, h.2.2.2.2, h2⟩
